import Mathlib

/-!
Verification development for the `genfinder` script
(`src/script/genfinder.py`): a pipeline that resolves a Spotify or
SoundCloud track link into Genius metadata and lyrics.

The Python functions are shallowly embedded as executable Lean
definitions.  Strings are Lean `String`s (lists of characters);
Python Unicode character classes (`str.lower`, `\w`, `\s`,
`str.strip`) are modelled by their Lean counterparts
(`Char.toLower`, ASCII alphanumerics, `Char.isWhitespace`), which
agree with Python on the ASCII range exercised by the script.
-/

/-- Python `str.lower()`, modelled character-wise. -/
def pyLower (s : String) : String := ⟨s.data.map Char.toLower⟩

/-- Python `needle in hay` on strings: contiguous-substring test.
`containsSub [] hay = true` matches Python (`"" in s` is `True`). -/
def containsSub (needle : List Char) : List Char → Bool
  | [] => needle.isEmpty
  | c :: cs => needle.isPrefixOf (c :: cs) || containsSub needle cs

/-- String-level wrapper for `containsSub`. -/
def substrOf (needle hay : String) : Bool := containsSub needle.data hay.data

/-- Python `str.strip()` on a character list: drop whitespace at both ends
(ASCII core of the Unicode class). -/
def stripChars (l : List Char) : List Char :=
  ((l.dropWhile Char.isWhitespace).reverse.dropWhile Char.isWhitespace).reverse

/-- Python `str.strip()`. -/
def pyStrip (s : String) : String := ⟨stripChars s.data⟩

/-- Worker for `pySplit`: scan the input, emitting the accumulated chunk
(reversed) at each occurrence of the separator; `fuel` (the input length
at the start) bounds the recursion. -/
def pySplitGo (sep : List Char) : Nat → List Char → List Char → List (List Char)
  | _, [], acc => [acc.reverse]
  | 0, l, acc => [acc.reverse ++ l]
  | fuel + 1, c :: cs, acc =>
    if sep.isPrefixOf (c :: cs) then
      acc.reverse :: pySplitGo sep fuel ((c :: cs).drop sep.length) []
    else pySplitGo sep fuel cs (c :: acc)

/-- Python `str.split(sep)` for a non-empty separator: split at each
leftmost, non-overlapping occurrence of `sep`. -/
def pySplit (sep : List Char) (l : List Char) : List (List Char) :=
  if sep.isEmpty then [l] else pySplitGo sep l.length l []

/-- `s.split(sep)` on strings. -/
def pySplitOn (s sep : String) : List String :=
  (pySplit sep.data s.data).map (fun c => ⟨c⟩)

/-- Python `sep.join(parts)`. -/
def pyJoin (sep : String) : List String → String
  | [] => ""
  | [x] => x
  | x :: y :: t => x ++ sep ++ pyJoin sep (y :: t)

/-! ## Metadata Extractor (`_get_spotify_metadata`, `_get_soundcloud_metadata`)

Only the pure title-parsing core is embedded: the HTTP fetch is an
external effect whose result (the title string) is the input here.
`pySplitOn` models Python `str.split` with a non-empty separator;
`pyStrip` models `str.strip()`. -/

/-- Title parsing of `_get_spotify_metadata` (lines 52-55):
`parts = [p.strip() for p in title.split(" - ")]`;
`if len(parts) >= 2: return parts[0], parts[-1]`; `return title, ""`.
Returns `(track, artist)`. -/
def _get_spotify_metadata (title : String) : String × String :=
  let parts := (pySplitOn title " - ").map pyStrip
  if 2 ≤ parts.length then (parts.headD "", parts.getLastD "") else (title, "")

/-- Title parsing of `_get_soundcloud_metadata` (lines 77-80):
`if len(parts) >= 2: return " - ".join(parts[1:]), parts[0]`;
`return title, ""`.  Returns `(track, artist)`. -/
def _get_soundcloud_metadata (title : String) : String × String :=
  let parts := (pySplitOn title " - ").map pyStrip
  if 2 ≤ parts.length then (pyJoin " - " (parts.drop 1), parts.headD "")
  else (title, "")

/-! ## Catalog Matcher (`_search_genius`, matching core, lines 98-108)

A hit is modelled by its primary-artist name together with its result
identifier.  The HTTP layer of `_search_genius` (status handling) is
embedded in `runMain` below. -/

/-- One search hit: `(hit["result"]["primary_artist"]["name"], hit["result"]["id"])`. -/
abbrev Hit := String × Int

/-- Loop test of line 103: `if artist_lower and artist_lower in primary_artist`.
Python truthiness of a string is non-emptiness. -/
def matchCheck (artistLower : String) (h : Hit) : Bool :=
  !(artistLower == "") && substrOf artistLower (pyLower h.1)

/-- Matching core of `_search_genius` (lines 98-108): first hit passing
`matchCheck`, else the first hit, else `None`. -/
def searchMatch (artist : String) (hits : List Hit) : Option Int :=
  match hits.find? (matchCheck (pyLower artist)) with
  | some h => some h.2
  | none => hits.head?.map (fun h => h.2)

/-! ## Lyrics Extractor (`_scrape_genius_lyrics`, lines 141-152)

The parsed HTML page is modelled as an immutable tree of elements and
text nodes.  BeautifulSoup's `find_all("div", {"data-lyrics-container":
"true"})` is pre-order search; `find_all(attrs={"data-exclude-from-selection":
True})` matches any element carrying that attribute (any value);
`extract()`-ing each match removes exactly the subtrees rooted at
marked elements, which on an immutable tree is the recursive filter
`removeExcludedList`; `get_text(separator="\n")` joins the text nodes
of the subtree with a newline. -/

/-- A DOM node: a text node or an element with a tag, attributes and children. -/
inductive Node where
  | text : String → Node
  | elem : String → List (String × String) → List Node → Node
deriving Repr

/-- Whether an attribute list carries a key (BeautifulSoup `attrs={k: True}`). -/
def hasAttr (attrs : List (String × String)) (key : String) : Bool :=
  attrs.any (fun kv => kv.1 == key)

/-- Remove from a forest every element (recursively) that carries the
`data-exclude-from-selection` attribute, as the `extract()` loop of
lines 145-146 does to the container's descendants. -/
def removeExcludedList : List Node → List Node
  | [] => []
  | Node.text s :: cs => Node.text s :: removeExcludedList cs
  | Node.elem t a gs :: cs =>
    if hasAttr a "data-exclude-from-selection" then removeExcludedList cs
    else Node.elem t a (removeExcludedList gs) :: removeExcludedList cs

/-- Apply the exclusion removal to a container's descendants
(the container node itself is never removed). -/
def removeExcluded : Node → Node
  | Node.text s => Node.text s
  | Node.elem t a cs => Node.elem t a (removeExcludedList cs)

/-- The text-node strings of a forest, in document order. -/
def stringsList : List Node → List String
  | [] => []
  | Node.text s :: cs => s :: stringsList cs
  | Node.elem _ _ gs :: cs => stringsList gs ++ stringsList cs

/-- The text-node strings of a node's subtree, in document order. -/
def nodeStrings : Node → List String
  | Node.text s => [s]
  | Node.elem _ _ cs => stringsList cs

/-- BeautifulSoup `get_text(separator="\n")`: join the subtree's
text-node strings with a newline. -/
def nodeGetText (n : Node) : String := pyJoin "\n" (nodeStrings n)

/-- Pre-order collection of `find_all("div", {"data-lyrics-container": "true"})`
over a forest. -/
def findContainersList : List Node → List Node
  | [] => []
  | Node.text _ :: cs => findContainersList cs
  | Node.elem t a gs :: cs =>
    (if t == "div" && (a.lookup "data-lyrics-container" == some "true")
     then [Node.elem t a gs] else [])
      ++ findContainersList gs ++ findContainersList cs

/-- All lyric containers of a document, in document order
(the root element's own subtree is searched, as `soup.find_all` does). -/
def findContainers : Node → List Node
  | Node.text _ => []
  | Node.elem t a gs =>
    (if t == "div" && (a.lookup "data-lyrics-container" == some "true")
     then [Node.elem t a gs] else [])
      ++ findContainersList gs

/-- The container loop of `_scrape_genius_lyrics` (lines 142-152), over an
already-located container list: clean each container, take its text with
newline separators, strip it, keep it when non-empty, join with newlines. -/
def scrapeGeniusLyricsOf (containers : List Node) : String :=
  let lyricsLines := containers.foldl
    (fun acc container =>
      let cleaned := removeExcluded container
      let text := pyStrip (nodeGetText cleaned)
      if text != "" then acc ++ [text] else acc)
    ([] : List String)
  pyJoin "\n" lyricsLines

/-- `_scrape_genius_lyrics` on a fetched page, lines 141-152 (the HTTP
fetch and HTML parse yield the document tree given here). -/
def _scrape_genius_lyrics (root : Node) : String :=
  scrapeGeniusLyricsOf (findContainers root)

/-- No element of the forest (recursively) carries the exclusion marker. -/
def cleanList : List Node → Bool
  | [] => true
  | Node.text _ :: cs => cleanList cs
  | Node.elem _ a gs :: cs =>
    !hasAttr a "data-exclude-from-selection" && cleanList gs && cleanList cs

/-! ## Filename sanitizer (`_sanitize_filename`, line 188)

`re.sub(r'[^\w\s\-_().]', '', name).strip().replace(" ", "_")`,
modelled character-wise: `\w` is alphanumeric-or-underscore, `\s` is
whitespace (ASCII core of the Python Unicode classes), `strip` trims
whitespace at both ends, `replace(" ", "_")` rewrites every space
character (and only the space character) to an underscore. -/

/-- Python `\w` (ASCII core): letters, digits, underscore. -/
def isWordChar (c : Char) : Bool := c.isAlphanum || c == '_'

/-- The character class kept by the `re.sub`: `[\w\s\-_().]`. -/
def allowedChar (c : Char) : Bool :=
  isWordChar c || c.isWhitespace || c == '-' || c == '_' ||
    c == '(' || c == ')' || c == '.'

/-- The character rewrite of `.replace(" ", "_")`. -/
def replSpace (c : Char) : Char := if c == ' ' then '_' else c

/-- `_sanitize_filename` on a character list: filter to the allowed
class, strip, replace spaces by underscores. -/
def sanitizeChars (l : List Char) : List Char :=
  (stripChars (l.filter allowedChar)).map replSpace

/-- `_sanitize_filename` (line 188). -/
def _sanitize_filename (s : String) : String := ⟨sanitizeChars s.data⟩

/-! ## JSON values and `json.dumps(..., ensure_ascii=False, indent=2)`

The structured values a Genius `SongRecord` may hold are modelled by
`JVal` (numbers as integers: the discrete model does not cover floats).
`dumpVal` reproduces the text `json.dumps` emits with `ensure_ascii=False`
and `indent=2`: two-space indentation, `",\n"`-separated items, `": "`
key separator, `"\x7b\x7d"`/`"[]"` for empty containers, non-ASCII
characters literal, and the standard escapes for `"`, `\`, and control
characters. -/

/-- A JSON value.  A `SongRecord` is an object: a key/value list. -/
inductive JVal where
  | null : JVal
  | bool : Bool → JVal
  | num : Int → JVal
  | str : String → JVal
  | arr : List JVal → JVal
  | obj : List (String × JVal) → JVal
deriving Repr

/-- The song record of the pipeline: an open string-keyed mapping. -/
abbrev SongRecord := List (String × JVal)

/-- Lower-case hexadecimal digit, as `"%04x"` formatting uses. -/
def hexDigit (n : Nat) : Char :=
  if n < 10 then Char.ofNat (48 + n) else Char.ofNat (87 + n)

/-- `json.dumps` escaping of one character (`ensure_ascii=False`):
backslash, double quote, the short escapes for backspace, form feed,
newline, carriage return, tab, `\u00XX` for the remaining control
characters, and every other character literally. -/
def escChar (c : Char) : List Char :=
  if c == '\\' then ['\\', '\\']
  else if c == '"' then ['\\', '"']
  else if c == '\x08' then ['\\', 'b']
  else if c == '\x0c' then ['\\', 'f']
  else if c == '\n' then ['\\', 'n']
  else if c == '\r' then ['\\', 'r']
  else if c == '\t' then ['\\', 't']
  else if c.toNat < 32 then
    ['\\', 'u', '0', '0', hexDigit (c.toNat / 16), hexDigit (c.toNat % 16)]
  else [c]

/-- A quoted JSON string literal for `s`. -/
def dumpString (s : String) : List Char :=
  '"' :: (s.data.map escChar).flatten ++ ['"']

/-- Decimal digits of a positive number, most significant first
(`fuel` bounds the recursion; `fuel ≥ n` suffices). -/
def natToCharsAux : Nat → Nat → List Char
  | 0, _ => []
  | fuel + 1, n =>
    if n == 0 then [] else natToCharsAux fuel (n / 10) ++ [hexDigit (n % 10)]

/-- Decimal representation of a natural number. -/
def natToChars (n : Nat) : List Char :=
  if n == 0 then ['0'] else natToCharsAux n n

/-- Decimal representation of an integer, as Python prints `int`. -/
def intToChars : Int → List Char
  | Int.ofNat n => natToChars n
  | Int.negSucc m => '-' :: natToChars (m + 1)

/-- An indentation run of `k` spaces. -/
def spaces (k : Nat) : List Char := List.replicate k ' '

mutual

/-- The text `json.dumps(v, ensure_ascii=False, indent=2)` emits for `v`
when the surrounding indentation is `ind` spaces. -/
def dumpVal (ind : Nat) : JVal → List Char
  | JVal.null => ['n', 'u', 'l', 'l']
  | JVal.bool true => ['t', 'r', 'u', 'e']
  | JVal.bool false => ['f', 'a', 'l', 's', 'e']
  | JVal.num i => intToChars i
  | JVal.str s => dumpString s
  | JVal.arr [] => ['[', ']']
  | JVal.arr (y :: ys) =>
    '[' :: '\n' :: dumpItems (ind + 2) y ys ++ '\n' :: spaces ind ++ [']']
  | JVal.obj [] => ['\x7b', '\x7d']
  | JVal.obj ((k, v) :: fs) =>
    '\x7b' :: '\n' :: dumpFields (ind + 2) k v fs ++ '\n' :: spaces ind ++ ['\x7d']
termination_by v => sizeOf v
decreasing_by all_goals (simp_wf; try omega)

/-- The `",\n"`-separated, indented item list of a non-empty array. -/
def dumpItems (ind : Nat) (y : JVal) (ys : List JVal) : List Char :=
  spaces ind ++ dumpVal ind y ++
    match ys with
    | [] => []
    | z :: zs => ',' :: '\n' :: dumpItems ind z zs
termination_by 1 + sizeOf y + sizeOf ys
decreasing_by all_goals (simp_wf; try omega)

/-- The `",\n"`-separated, indented member list of a non-empty object. -/
def dumpFields (ind : Nat) (k : String) (v : JVal)
    (fs : List (String × JVal)) : List Char :=
  spaces ind ++ dumpString k ++ ':' :: ' ' :: dumpVal ind v ++
    match fs with
    | [] => []
    | (k2, v2) :: gs => ',' :: '\n' :: dumpFields ind k2 v2 gs
termination_by 1 + sizeOf v + sizeOf fs
decreasing_by all_goals (simp_wf; try omega)

end

/-- `json.dumps(v, ensure_ascii=False, indent=2)`. -/
def dumps (v : JVal) : String := ⟨dumpVal 0 v⟩

/-! ## JSON parsing (`json.loads`)

A recursive-descent parser over the character list, faithful to
`json.loads` on the fragment `dumps` can emit (numbers are integers in
the model; `strict=True` rejection of raw control characters in strings
is kept).  `parseVal` takes a fuel bound on container nesting; the
entry point `jsonLoads` supplies input length plus one, which the
round-trip development shows is always sufficient. -/

/-- JSON insignificant whitespace. -/
def isWsChar (c : Char) : Bool := c == ' ' || c == '\t' || c == '\n' || c == '\r'

/-- Skip insignificant whitespace. -/
def skipWs (l : List Char) : List Char := l.dropWhile isWsChar

/-- Value of one hexadecimal digit. -/
def parseHex (c : Char) : Option Nat :=
  if 48 ≤ c.toNat && c.toNat ≤ 57 then some (c.toNat - 48)
  else if 97 ≤ c.toNat && c.toNat ≤ 102 then some (c.toNat - 87)
  else if 65 ≤ c.toNat && c.toNat ≤ 70 then some (c.toNat - 55)
  else none

/-- Parse the body of a JSON string literal (after the opening quote),
returning the decoded characters and the input after the closing quote. -/
def parseString : List Char → Option (List Char × List Char)
  | [] => none
  | c :: cs =>
    if c == '"' then some ([], cs)
    else if c == '\\' then
      match cs with
      | [] => none
      | e :: cs2 =>
        if e == '"' then (parseString cs2).map (fun p => ('"' :: p.1, p.2))
        else if e == '\\' then (parseString cs2).map (fun p => ('\\' :: p.1, p.2))
        else if e == '/' then (parseString cs2).map (fun p => ('/' :: p.1, p.2))
        else if e == 'b' then (parseString cs2).map (fun p => ('\x08' :: p.1, p.2))
        else if e == 'f' then (parseString cs2).map (fun p => ('\x0c' :: p.1, p.2))
        else if e == 'n' then (parseString cs2).map (fun p => ('\n' :: p.1, p.2))
        else if e == 'r' then (parseString cs2).map (fun p => ('\r' :: p.1, p.2))
        else if e == 't' then (parseString cs2).map (fun p => ('\t' :: p.1, p.2))
        else if e == 'u' then
          match cs2 with
          | h1 :: h2 :: h3 :: h4 :: cs3 =>
            match parseHex h1, parseHex h2, parseHex h3, parseHex h4 with
            | some a, some b, some c2, some d =>
              (parseString cs3).map
                (fun p => (Char.ofNat (((a * 16 + b) * 16 + c2) * 16 + d) :: p.1, p.2))
            | _, _, _, _ => none
          | _ => none
        else none
    else if c.toNat < 32 then none
    else (parseString cs).map (fun p => (c :: p.1, p.2))

/-- Consume a maximal run of decimal digits, accumulating their value. -/
def parseNatDigits : List Char → Nat → Nat × List Char
  | [], acc => (acc, [])
  | c :: cs, acc =>
    if c.isDigit then parseNatDigits cs (acc * 10 + (c.toNat - 48))
    else (acc, c :: cs)

/-- Check that `pat` is a literal prefix of the input and consume it. -/
def expectChars (pat : List Char) (l : List Char) : Option (List Char) :=
  if pat.isPrefixOf l then some (l.drop pat.length) else none

mutual

/-- Parse one JSON value (after skipping whitespace); `fuel` bounds
container nesting and total element count. -/
def parseVal : Nat → List Char → Option (JVal × List Char)
  | 0, _ => none
  | fuel + 1, input =>
    match skipWs input with
    | [] => none
    | c :: cs =>
      if c == 'n' then (expectChars ['u', 'l', 'l'] cs).map (fun r => (JVal.null, r))
      else if c == 't' then
        (expectChars ['r', 'u', 'e'] cs).map (fun r => (JVal.bool true, r))
      else if c == 'f' then
        (expectChars ['a', 'l', 's', 'e'] cs).map (fun r => (JVal.bool false, r))
      else if c == '"' then
        (parseString cs).map (fun p => (JVal.str ⟨p.1⟩, p.2))
      else if c == '-' then
        match cs with
        | d :: _ =>
          if d.isDigit then
            let p := parseNatDigits cs 0
            some (JVal.num (-(p.1 : Int)), p.2)
          else none
        | [] => none
      else if c.isDigit then
        let p := parseNatDigits (c :: cs) 0
        some (JVal.num (p.1 : Int), p.2)
      else if c == '[' then
        match skipWs cs with
        | ']' :: r => some (JVal.arr [], r)
        | t => (parseItems fuel t).map (fun p => (JVal.arr p.1, p.2))
      else if c == '\x7b' then
        match skipWs cs with
        | '\x7d' :: r => some (JVal.obj [], r)
        | t => (parseFields fuel t).map (fun p => (JVal.obj p.1, p.2))
      else none

/-- Parse the non-empty comma-separated items of an array, consuming
the closing bracket. -/
def parseItems : Nat → List Char → Option (List JVal × List Char)
  | 0, _ => none
  | fuel + 1, input =>
    match parseVal fuel input with
    | none => none
    | some (v, r) =>
      match skipWs r with
      | ',' :: r2 =>
        match parseItems fuel r2 with
        | some (vs, r3) => some (v :: vs, r3)
        | none => none
      | ']' :: r2 => some ([v], r2)
      | _ => none

/-- Parse the non-empty comma-separated members of an object, consuming
the closing brace. -/
def parseFields : Nat → List Char → Option (List (String × JVal) × List Char)
  | 0, _ => none
  | fuel + 1, input =>
    match skipWs input with
    | '"' :: cs =>
      match parseString cs with
      | none => none
      | some (k, r) =>
        match skipWs r with
        | ':' :: r2 =>
          match parseVal fuel r2 with
          | none => none
          | some (v, r3) =>
            match skipWs r3 with
            | ',' :: r4 =>
              match parseFields fuel r4 with
              | some (fs, r5) => some ((⟨k⟩, v) :: fs, r5)
              | none => none
            | '\x7d' :: r4 => some ([(⟨k⟩, v)], r4)
            | _ => none
        | _ => none
    | _ => none

end

/-- `json.loads`: parse a complete document, rejecting trailing garbage. -/
def jsonLoads (s : String) : Option JVal :=
  match parseVal (s.data.length + 1) s.data with
  | some (v, r) => if skipWs r = [] then some v else none
  | none => none

mutual

/-- Fuel needed by `parseVal` to parse the dump of a value. -/
def jsize : JVal → Nat
  | JVal.null | JVal.bool _ | JVal.num _ | JVal.str _ => 1
  | JVal.arr [] => 1
  | JVal.arr (y :: ys) => 1 + jsizeItems y ys
  | JVal.obj [] => 1
  | JVal.obj ((_, v) :: fs) => 1 + jsizeFields v fs
termination_by v => sizeOf v
decreasing_by all_goals (simp_wf; try omega)

/-- Fuel needed by `parseItems` for a non-empty item list. -/
def jsizeItems (y : JVal) (ys : List JVal) : Nat :=
  1 + jsize y +
    match ys with
    | [] => 0
    | z :: zs => jsizeItems z zs
termination_by 1 + sizeOf y + sizeOf ys
decreasing_by all_goals (simp_wf; try omega)

/-- Fuel needed by `parseFields` for a non-empty member list. -/
def jsizeFields (v : JVal) (fs : List (String × JVal)) : Nat :=
  1 + jsize v +
    match fs with
    | [] => 0
    | (_, v2) :: gs => jsizeFields v2 gs
termination_by 1 + sizeOf v + sizeOf fs
decreasing_by all_goals (simp_wf; try omega)

end

/-! ## Result Composer and orchestrator (`_print_metadata`, `main`)

`main`'s effects (HTTP responses, stderr, stdout, exit) are modelled by
an explicit `World` of collaborator responses and a `RunResult`.  An
uncaught Python exception (the `raise e` of the non-401 catalog-error
branches, or a `KeyError` inside `_print_metadata`) terminates the
interpreter with exit status 1 and a traceback on stderr that carries
no `[ERROR]` label; it is recorded in `RunResult.uncaughtExn` separate
from the `[ERROR]`/`[WARNING]` messages the script itself writes. -/

/-- Python truthiness of a structured value. -/
def jTruthy : JVal → Bool
  | JVal.null => false
  | JVal.bool b => b
  | JVal.num i => !(i == 0)
  | JVal.str s => !(s == "")
  | JVal.arr l => !l.isEmpty
  | JVal.obj l => !l.isEmpty

/-- `record.get(key)` on a string-keyed mapping (first binding wins,
as Python dict keys are unique). -/
def jLookup (r : SongRecord) (k : String) : Option JVal :=
  (List.find? (fun kv => kv.1 == k) r).map (fun kv => kv.2)

/-- `value[key]` on a structured value; `none` models the `KeyError` /
`TypeError` Python raises when the key is absent or the value is not
a mapping. -/
def jGet (v : JVal) (k : String) : Option JVal :=
  match v with
  | JVal.obj fs => jLookup fs k
  | _ => none

/-- Python `str()` of a structured value, as an f-string interpolates it
(containers rendered through their JSON text as a stand-in for `repr`,
never reached by the claims). -/
def pyStr : JVal → String
  | JVal.null => "None"
  | JVal.bool true => "True"
  | JVal.bool false => "False"
  | JVal.num i => ⟨intToChars i⟩
  | JVal.str s => s
  | JVal.arr l => dumps (JVal.arr l)
  | JVal.obj l => dumps (JVal.obj l)

/-- `str()` of an optional value (`song.get(k)` interpolated into an
f-string prints `None` when the key is absent). -/
def pyStrOpt : Option JVal → String
  | none => "None"
  | some v => pyStr v

/-- `_print_metadata` (lines 155-174): the fixed-order metadata lines
joined by newlines; `none` models the `KeyError`/`TypeError` escape when
`song["primary_artist"]["name"]` (or `["album"]["name"]` on a truthy
album) is missing or not a mapping. -/
def _print_metadata (song : SongRecord) : Option String := do
  let pa ← jLookup song "primary_artist"
  let nm ← jGet pa "name"
  let base := ["Title : " ++ pyStrOpt (jLookup song "title"),
               "Artist: " ++ pyStr nm]
  let withAlbum ←
    match jLookup song "album" with
    | some a =>
      if jTruthy a then
        (jGet a "name").map (fun an => base ++ ["Album : " ++ pyStr an])
      else some base
    | none => some base
  let withDate :=
    match jLookup song "release_date" with
    | some d => if jTruthy d then withAlbum ++ ["Date  : " ++ pyStr d] else withAlbum
    | none => withAlbum
  some (pyJoin "\n" (withDate ++ ["URL   : " ++ pyStrOpt (jLookup song "url")]))

/-- `song_with_lyrics[k] = v`: overwrite an existing binding in place,
else append the new binding at the end (Python dict assignment). -/
def setKey (r : SongRecord) (k : String) (v : JVal) : SongRecord :=
  if r.any (fun kv => kv.1 == k) then
    r.map (fun kv => if kv.1 == k then (k, v) else kv)
  else r ++ [(k, v)]

/-- Command-line options of one invocation (`argparse` guarantees
`lyrics` and `data` are mutually exclusive). -/
structure Args where
  lyrics : Bool
  data : Bool
  jsonOut : Bool
  file : Option String

/-- Responses of the external collaborators during one run. -/
structure World where
  /-- The access token is empty or still the placeholder (line 234). -/
  tokenPlaceholder : Bool
  /-- Outcome of `_get_spotify_metadata` / `_get_soundcloud_metadata`:
  the `(track, artist)` pair, or the `ValueError` message. -/
  metaResult : Except String (String × String)
  /-- HTTP status of the Genius `/search` call. -/
  searchStatus : Nat
  /-- Parsed search hits when the search succeeds. -/
  hits : List Hit
  /-- HTTP status of the Genius `/songs/<id>` call. -/
  songStatus : Nat
  /-- The song record when the song fetch succeeds. -/
  song : SongRecord
  /-- Outcome of `_scrape_genius_lyrics`: lyrics text, or the exception message. -/
  scrapeResult : Except String String

/-- Observable outcome of one run of the script. -/
structure RunResult where
  exitCode : Nat
  stderr : List String
  stdout : Option String
  fileOut : Option (String × String)
  uncaughtExn : Option String
deriving Repr, DecidableEq

/-- `requests.Response.raise_for_status` raises for 4xx and 5xx statuses. -/
def raisesStatus (s : Nat) : Bool := 400 ≤ s && s < 600

/-- The output composition of `main` (lines 269-284) for the selected
mode and format; `none` models a `KeyError` escaping `_print_metadata`. -/
def composeOutput (a : Args) (song : SongRecord) (lyrics : String) :
    Option String :=
  if a.jsonOut then
    if a.lyrics then some (dumps (JVal.obj [("lyrics", JVal.str lyrics)]))
    else if a.data then some (dumps (JVal.obj song))
    else some (dumps (JVal.obj (setKey song "lyrics" (JVal.str lyrics))))
  else
    if a.lyrics then some lyrics
    else if a.data then _print_metadata song
    else (_print_metadata song).map (fun m => m ++ "\n\n" ++ lyrics)

/-- The title used for the output filename:
`song.get("title", "unknown_title")` rendered as text. -/
def songTitle (song : SongRecord) : String :=
  match jLookup song "title" with
  | some v => pyStr v
  | none => "unknown_title"

/-- `main` (lines 210-290), its own behaviour over the collaborators'
responses: token validation, metadata extraction with its `ValueError`
handler, the HTTP/401 handling of `_search_genius` and
`_get_genius_song`, the falsy-identifier check `if not song_id`, the
non-fatal lyrics-scrape handler, output composition and emission. -/
def runMain (a : Args) (w : World) : RunResult :=
  if w.tokenPlaceholder then
    ⟨1, ["[ERROR] Please set GENIUS_ACCESS_TOKEN in the script (line 32).\n"],
     none, none, none⟩
  else
    match w.metaResult with
    | Except.error e => ⟨1, ["[ERROR] " ++ e ++ "\n"], none, none, none⟩
    | Except.ok (track, artist) =>
      if track == "" then
        ⟨1, ["[ERROR] Could not parse metadata from provided link.\n"],
         none, none, none⟩
      else if raisesStatus w.searchStatus then
        if w.searchStatus == 401 then
          ⟨1, ["[ERROR] Invalid Genius API access token: HTTPError"],
           none, none, none⟩
        else ⟨1, [], none, none, some "requests.exceptions.HTTPError (search)"⟩
      else
        let songId := searchMatch artist w.hits
        if songId.getD 0 == 0 then
          ⟨1, ["[ERROR] No matching song found on Genius.\n"], none, none, none⟩
        else if raisesStatus w.songStatus then
          if w.songStatus == 401 then
            ⟨1, ["[ERROR] Invalid Genius API access token (HTTP 401 Unauthorized).\n"],
             none, none, none⟩
          else ⟨1, [], none, none, some "requests.exceptions.HTTPError (songs)"⟩
        else
          let needLyrics := a.lyrics || !a.data
          let scraped :=
            if needLyrics then
              match w.scrapeResult with
              | Except.ok s => (s, ([] : List String))
              | Except.error e =>
                ("", ["[WARNING] Lyrics scraping failed: " ++ e ++ "\n"])
            else ("", [])
          match composeOutput a w.song scraped.1 with
          | none => ⟨1, scraped.2, none, none, some "KeyError (_print_metadata)"⟩
          | some out =>
            match a.file with
            | some folder =>
              let path := folder ++ "/" ++ _sanitize_filename (songTitle w.song)
                ++ "." ++ (if a.jsonOut then "json" else "txt")
              ⟨0, scraped.2, some ("\n[FICHIER SAUVÉ] " ++ path),
               some (path, out), none⟩
            | none => ⟨0, scraped.2, some out, none, none⟩

/-- Whether a message carries the stable `[ERROR]` label (statement-level
predicate over the embedded error stream). -/
def errLabeled (m : String) : Bool := "[ERROR]".data.isPrefixOf m.data

/-! ## Theorems -/

/-- A string maps to the empty string under `pyLower` only if it is empty. -/
theorem pyLower_eq_empty_iff (s : String) : pyLower s = "" ↔ s = "" := by
  unfold pyLower
  constructor
  · intro h
    have hd : s.data.map Char.toLower = [] := congrArg String.data h
    have : s.data = [] := by
      cases hs : s.data with
      | nil => rfl
      | cons c cs => rw [hs] at hd; simp at hd
    cases s
    simp_all
  · intro h
    subst h
    rfl

/-- `find?` skips a prefix on which the predicate is everywhere false. -/
theorem find?_append_of_none {α : Type} (p : α → Bool) (l₁ l₂ : List α)
    (h : ∀ y ∈ l₁, p y = false) :
    List.find? p (l₁ ++ l₂) = List.find? p l₂ := by
  induction l₁ with
  | nil => rfl
  | cons a t ih =>
    rw [List.cons_append, List.find?_cons_of_neg]
    · exact ih (fun y hy => h y (List.mem_cons_of_mem a hy))
    · simp [h a (List.mem_cons_self a t)]

/-- C1: for a non-empty query artist, the matcher returns the identifier of
the first hit (in list order) whose case-folded primary-artist name contains
the case-folded query artist as a substring; for an empty query artist the
per-hit substring check never accepts any hit. -/
theorem search_first_substring_match :
    ∀ (artist : String) (hits : List Hit),
      (∀ pre x post, hits = pre ++ x :: post → artist ≠ "" →
        substrOf (pyLower artist) (pyLower x.1) = true →
        (∀ y ∈ pre, substrOf (pyLower artist) (pyLower y.1) = false) →
        searchMatch artist hits = some x.2)
      ∧ (artist = "" → ∀ x : Hit, matchCheck (pyLower artist) x = false) := by
  intro artist hits
  constructor
  · intro pre x post hsplit hne hsub hpre
    subst hsplit
    have hal : (pyLower artist == "") = false := by
      rw [beq_eq_false_iff_ne]
      intro h
      exact hne ((pyLower_eq_empty_iff artist).mp h)
    have hx : matchCheck (pyLower artist) x = true := by
      simp [matchCheck, hal, hsub]
    unfold searchMatch
    rw [find?_append_of_none _ pre _
      (fun y hy => by simp [matchCheck, hpre y hy]),
      List.find?_cons_of_pos _ hx]
  · intro h x
    subst h
    simp [matchCheck, pyLower]

/-- C1 witness (the spec's P3 instance): hits `["The Weeknd", "Drake"]`,
query artist `"weeknd"`, the first hit matches case-insensitively. -/
theorem search_first_substring_match_witness :
    searchMatch "weeknd" [("The Weeknd", 1), ("Drake", 2)] = some 1 := by
  exact (search_first_substring_match "weeknd"
      [("The Weeknd", 1), ("Drake", 2)]).1
    [] ("The Weeknd", 1) [("Drake", 2)] rfl (by decide) (by decide)
    (by intro y hy; simp at hy)

/-- C2: when no hit passes the substring check, the matcher returns the
first hit's identifier on a non-empty hit list; and it returns `none`
exactly when the hit list is empty. -/
theorem search_fallback_first_hit :
    ∀ (artist : String) (hits : List Hit),
      ((∀ x ∈ hits, matchCheck (pyLower artist) x = false) →
        ∀ y ys, hits = y :: ys → searchMatch artist hits = some y.2)
      ∧ (searchMatch artist hits = none ↔ hits = []) := by
  intro artist hits
  constructor
  · intro hall y ys hsplit
    subst hsplit
    unfold searchMatch
    rw [List.find?_eq_none.mpr (fun x hx => by simp [hall x hx])]
    rfl
  · constructor
    · intro h
      cases hits with
      | nil => rfl
      | cons y ys =>
        unfold searchMatch at h
        cases hf : List.find? (matchCheck (pyLower artist)) (y :: ys) with
        | some z => rw [hf] at h; exact absurd h (by simp)
        | none => rw [hf] at h; exact absurd h (by simp)
    · intro h
      subst h
      rfl

/-- C2 witness (the spec's P4 instance): no substring match, the first
hit's identifier is returned; on an empty hit list the result is `none`. -/
theorem search_fallback_first_hit_witness :
    searchMatch "Z" [("X", 1), ("Y", 2)] = some 1 := by
  exact (search_fallback_first_hit "Z" [("X", 1), ("Y", 2)]).1
    (by decide) ("X", 1) [("Y", 2)] rfl

/-- The last element of a mapped non-empty list is the image of the last
element. -/
theorem getLastD_map_strip :
    ∀ (l : List String), l ≠ [] →
      (l.map pyStrip).getLastD "" = pyStrip (l.getLastD "") := by
  intro l
  induction l with
  | nil => intro h; cases h rfl
  | cons a t ih =>
    intro _
    cases t with
    | nil => rfl
    | cons b t2 =>
      rw [List.map_cons, List.getLastD_cons, List.getLastD_cons]
      have := ih (by simp)
      rw [List.getLastD_eq_getLast?, List.getLastD_eq_getLast?] at this ⊢
      cases hl : (b :: t2).getLast? with
      | none => simp at hl
      | some z =>
        rw [List.getLast?_map, hl] at this ⊢
        simp_all

/-- C4: the Spotify title parser returns the first part trimmed as the
track and the last part trimmed as the artist when the `" - "` split has
at least two parts, and the whole title with an empty artist when it has
exactly one part. -/
theorem spotify_split_spec :
    ∀ (title : String),
      (∀ p q ps, pySplitOn title " - " = p :: q :: ps →
        _get_spotify_metadata title =
          (pyStrip p, pyStrip ((p :: q :: ps).getLastD "")))
      ∧ ((pySplitOn title " - ").length = 1 →
        _get_spotify_metadata title = (title, "")) := by
  intro title
  constructor
  · intro p q ps hsplit
    unfold _get_spotify_metadata
    rw [hsplit]
    have hlen : 2 ≤ ((p :: q :: ps).map pyStrip).length := by simp
    rw [if_pos hlen]
    rw [getLastD_map_strip (p :: q :: ps) (by simp)]
    rfl
  · intro hlen
    unfold _get_spotify_metadata
    cases hsplit : pySplitOn title " - " with
    | nil => rw [hsplit] at hlen; simp at hlen
    | cons a t =>
      rw [hsplit] at hlen
      simp at hlen
      subst hlen
      simp

/-- C4 witness (the spec's P1 instances). -/
theorem spotify_split_spec_witness :
    _get_spotify_metadata "Song Name - Artist Name" =
        ("Song Name", "Artist Name")
      ∧ _get_spotify_metadata "NoSeparator" = ("NoSeparator", "") := by
  constructor
  · exact ((spotify_split_spec "Song Name - Artist Name").1
      "Song Name" "Artist Name" [] (by decide)).trans (by decide)
  · exact (spotify_split_spec "NoSeparator").2 (by decide)

/-- C5: the SoundCloud title parser returns the first part trimmed as the
artist and the remaining (trimmed) parts rejoined with `" - "` as the
track when the split has at least two parts, and the whole title with an
empty artist when it has exactly one part. -/
theorem soundcloud_split_spec :
    ∀ (title : String),
      (∀ p q ps, pySplitOn title " - " = p :: q :: ps →
        _get_soundcloud_metadata title =
          (pyJoin " - " ((q :: ps).map pyStrip), pyStrip p))
      ∧ ((pySplitOn title " - ").length = 1 →
        _get_soundcloud_metadata title = (title, "")) := by
  intro title
  constructor
  · intro p q ps hsplit
    unfold _get_soundcloud_metadata
    rw [hsplit]
    have hlen : 2 ≤ ((p :: q :: ps).map pyStrip).length := by simp
    rw [if_pos hlen]
    rfl
  · intro hlen
    unfold _get_soundcloud_metadata
    cases hsplit : pySplitOn title " - " with
    | nil => rw [hsplit] at hlen; simp at hlen
    | cons a t =>
      rw [hsplit] at hlen
      simp at hlen
      subst hlen
      simp

/-- C5 witness (the spec's P2 instance): the track part may itself
contain the separator and is rejoined. -/
theorem soundcloud_split_spec_witness :
    _get_soundcloud_metadata "Artist - Part One - Part Two" =
      ("Part One - Part Two", "Artist") := by
  exact ((soundcloud_split_spec "Artist - Part One - Part Two").1
    "Artist" "Part One" ["Part Two"] (by decide)).trans (by decide)

/-- Elements survive `stripChars`. -/
theorem mem_of_mem_stripChars {c : Char} {l : List Char}
    (h : c ∈ stripChars l) : c ∈ l := by
  unfold stripChars at h
  rw [List.mem_reverse] at h
  have h2 := (List.dropWhile_sublist Char.isWhitespace).subset h
  rw [List.mem_reverse] at h2
  exact (List.dropWhile_sublist Char.isWhitespace).subset h2

/-- `replSpace` keeps characters inside the allowed class. -/
theorem allowedChar_replSpace {c : Char} (h : allowedChar c = true) :
    allowedChar (replSpace c) = true := by
  unfold replSpace
  split
  · decide
  · exact h

/-- Every character of a sanitized string is in the allowed class. -/
theorem sanitizeChars_allowed {c : Char} {l : List Char}
    (h : c ∈ sanitizeChars l) : allowedChar c = true := by
  unfold sanitizeChars at h
  rw [List.mem_map] at h
  obtain ⟨d, hd, hcd⟩ := h
  have hdl := mem_of_mem_stripChars hd
  rw [List.mem_filter] at hdl
  rw [← hcd]
  exact allowedChar_replSpace hdl.2

/-- The head of `dropWhile p l` never satisfies `p`. -/
theorem head?_dropWhile_not_sat (p : Char → Bool) :
    ∀ (l : List Char) (c : Char), (l.dropWhile p).head? = some c → p c = false := by
  intro l
  induction l with
  | nil => intro c h; simp at h
  | cons a t ih =>
    intro c h
    by_cases ha : p a
    · rw [List.dropWhile_cons_of_pos ha] at h
      exact ih c h
    · rw [List.dropWhile_cons_of_neg ha] at h
      simp at h
      rw [← h]
      exact Bool.eq_false_iff.mpr ha

/-- The last element of `dropWhile p l`, if any, is the last element of `l`. -/
theorem getLast?_dropWhile_of_some (p : Char → Bool) :
    ∀ (l : List Char) (c : Char),
      (l.dropWhile p).getLast? = some c → l.getLast? = some c := by
  intro l
  induction l with
  | nil => intro c h; simp at h
  | cons a t ih =>
    intro c h
    by_cases ha : p a
    · rw [List.dropWhile_cons_of_pos ha] at h
      have ht := ih c h
      cases t with
      | nil => simp at ht
      | cons b t2 => rw [List.getLast?_cons_cons]; exact ht
    · rw [List.dropWhile_cons_of_neg ha] at h
      exact h

/-- The head of a stripped list is not whitespace. -/
theorem stripChars_head_not_ws (l : List Char) (c : Char)
    (h : (stripChars l).head? = some c) : Char.isWhitespace c = false := by
  unfold stripChars at h
  rw [List.head?_reverse] at h
  have h2 := getLast?_dropWhile_of_some Char.isWhitespace _ c h
  rw [List.getLast?_reverse] at h2
  exact head?_dropWhile_not_sat Char.isWhitespace _ c h2

/-- The last element of a stripped list is not whitespace. -/
theorem stripChars_getLast_not_ws (l : List Char) (c : Char)
    (h : (stripChars l).getLast? = some c) : Char.isWhitespace c = false := by
  unfold stripChars at h
  rw [List.getLast?_reverse] at h
  exact head?_dropWhile_not_sat Char.isWhitespace _ c h

/-- Stripping a list with non-whitespace ends is the identity. -/
theorem stripChars_eq_self (l : List Char)
    (hh : ∀ c, l.head? = some c → Char.isWhitespace c = false)
    (hl : ∀ c, l.getLast? = some c → Char.isWhitespace c = false) :
    stripChars l = l := by
  unfold stripChars
  have h1 : l.dropWhile Char.isWhitespace = l := by
    cases l with
    | nil => rfl
    | cons a t =>
      exact List.dropWhile_cons_of_neg
        (by simp [hh a rfl])
  rw [h1]
  have h2 : l.reverse.dropWhile Char.isWhitespace = l.reverse := by
    cases hr : l.reverse with
    | nil => rfl
    | cons a t =>
      refine List.dropWhile_cons_of_neg ?_
      have : l.getLast? = some a := by
        rw [← List.head?_reverse, hr]
        rfl
      simp [hl a this]
  rw [h2, List.reverse_reverse]

/-- `replSpace` fixes every character except the space, and never
produces a space. -/
theorem replSpace_ne_space (c : Char) : (replSpace c == ' ') = false := by
  unfold replSpace
  split
  · decide
  · next h => simpa using h

/-- Mapping `replSpace` over a list without spaces is the identity. -/
theorem map_replSpace_eq_self (l : List Char)
    (h : ∀ c ∈ l, (c == ' ') = false) : l.map replSpace = l := by
  induction l with
  | nil => rfl
  | cons a t ih =>
    rw [List.map_cons, ih (fun c hc => h c (List.mem_cons_of_mem a hc))]
    have ha := h a (List.mem_cons_self a t)
    unfold replSpace
    rw [if_neg (by simpa using ha)]

/-- C8: `_sanitize_filename` is idempotent. -/
theorem sanitize_filename_idempotent :
    ∀ s : String, _sanitize_filename (_sanitize_filename s) = _sanitize_filename s := by
  intro s
  unfold _sanitize_filename
  refine congrArg String.mk ?_
  show sanitizeChars (sanitizeChars s.data) = sanitizeChars s.data
  set t := sanitizeChars s.data with ht
  have step1 : t.filter allowedChar = t :=
    List.filter_eq_self.mpr (fun c hc => sanitizeChars_allowed (ht ▸ hc))
  have hnospace : ∀ c ∈ t, (c == ' ') = false := by
    intro c hc
    rw [ht] at hc
    unfold sanitizeChars at hc
    rw [List.mem_map] at hc
    obtain ⟨d, _, hcd⟩ := hc
    rw [← hcd]
    exact replSpace_ne_space d
  have step2 : stripChars t = t := by
    refine stripChars_eq_self t ?_ ?_
    · intro c hc
      rw [ht] at hc
      unfold sanitizeChars at hc
      rw [List.head?_map] at hc
      cases hd : (stripChars (s.data.filter allowedChar)).head? with
      | none => rw [hd] at hc; simp at hc
      | some d =>
        rw [hd] at hc
        simp at hc
        have hwd := stripChars_head_not_ws _ d hd
        have : replSpace d = d := by
          unfold replSpace
          rw [if_neg]
          intro he
          rw [show d = ' ' from by simpa using he] at hwd
          simp [Char.isWhitespace] at hwd
        rw [← hc, this]
        exact hwd
    · intro c hc
      rw [ht] at hc
      unfold sanitizeChars at hc
      rw [List.getLast?_map] at hc
      cases hd : (stripChars (s.data.filter allowedChar)).getLast? with
      | none => rw [hd] at hc; simp at hc
      | some d =>
        rw [hd] at hc
        simp at hc
        have hwd := stripChars_getLast_not_ws _ d hd
        have : replSpace d = d := by
          unfold replSpace
          rw [if_neg]
          intro he
          rw [show d = ' ' from by simpa using he] at hwd
          simp [Char.isWhitespace] at hwd
        rw [← hc, this]
        exact hwd
  have step3 : t.map replSpace = t := map_replSpace_eq_self t hnospace
  show (stripChars ((sanitizeChars s.data).filter allowedChar)).map replSpace
    = sanitizeChars s.data
  rw [← ht, step1, step2, step3]

/-- The container loop accumulates exactly the non-empty stripped
container texts, in order. -/
theorem scrape_loop_eq :
    ∀ (l : List Node) (acc : List String),
      l.foldl (fun acc container =>
        let cleaned := removeExcluded container
        let text := pyStrip (nodeGetText cleaned)
        if text != "" then acc ++ [text] else acc) acc
      = acc ++ (l.map (fun c => pyStrip (nodeGetText (removeExcluded c)))).filter
          (fun t => t != "") := by
  intro l
  induction l with
  | nil => intro acc; simp
  | cons c t ih =>
    intro acc
    rw [List.foldl_cons, List.map_cons, List.filter_cons]
    cases hc : (pyStrip (nodeGetText (removeExcluded c)) != "") with
    | true =>
      simp only [hc, ih, if_true]
      simp [List.append_assoc]
    | false =>
      simp only [hc, ih]
      simp

/-- After removal, no element of the cleaned forest carries the
exclusion marker. -/
theorem cleanList_removeExcludedList :
    ∀ cs : List Node, cleanList (removeExcludedList cs) = true := by
  intro cs
  induction cs using removeExcludedList.induct with
  | case1 => simp [removeExcludedList, cleanList]
  | case2 s cs ih => simpa [removeExcludedList, cleanList] using ih
  | case3 t a gs cs hattr ih =>
    simpa [removeExcludedList, cleanList, hattr] using ih
  | case4 t a gs cs hattr ihg ihc =>
    simp [removeExcludedList, cleanList, hattr, ihg, ihc]

/-- C3: the lyrics extractor matches its specification: every marked
descendant is removed from each container before text extraction (the
cleaned forest carries no exclusion marker anywhere, second part), each
cleaned container's text is taken with newline as the inter-element
separator and trimmed, containers whose trimmed text is empty are
dropped, and the survivors are joined with single newlines in document
order. -/
theorem scrape_genius_lyrics_spec :
    (∀ root : Node,
      _scrape_genius_lyrics root =
        pyJoin "\n"
          (((findContainers root).map
              (fun c => pyStrip (nodeGetText (removeExcluded c)))).filter
            (fun t => t != "")))
    ∧ (∀ cs : List Node, cleanList (removeExcludedList cs) = true) := by
  constructor
  · intro root
    unfold _scrape_genius_lyrics scrapeGeniusLyricsOf
    rw [scrape_loop_eq]
    simp
  · exact cleanList_removeExcludedList

/-- Appending to an `[ERROR]`-labeled message keeps the label. -/
theorem errLabeled_concat (pre e : String) (h : errLabeled pre = true) :
    errLabeled (pre ++ e) = true := by
  unfold errLabeled at *
  rw [List.isPrefixOf_iff_prefix] at *
  rw [String.data_append]
  exact h.trans (List.prefix_append _ _)

/-- C6 (amended): the fatal kinds handled by the script — missing/placeholder
credential, extraction failure, empty extracted track, HTTP 401 from the
search or the song fetch, and no (truthy) match — each write an
`[ERROR]`-labeled message to the error stream and exit non-zero; a
non-401 catalog/API error from either endpoint instead escapes as an
uncaught exception: the process still terminates non-zero, but no
`[ERROR]`-labeled message is written. -/
theorem fatal_error_reporting :
    ∀ (a : Args) (w : World),
      (w.tokenPlaceholder = true →
        (runMain a w).exitCode ≠ 0 ∧
        ∃ m ∈ (runMain a w).stderr, errLabeled m = true) ∧
      (∀ e, w.tokenPlaceholder = false → w.metaResult = Except.error e →
        (runMain a w).exitCode ≠ 0 ∧
        ∃ m ∈ (runMain a w).stderr, errLabeled m = true) ∧
      (∀ ar, w.tokenPlaceholder = false → w.metaResult = Except.ok ("", ar) →
        (runMain a w).exitCode ≠ 0 ∧
        ∃ m ∈ (runMain a w).stderr, errLabeled m = true) ∧
      (∀ tr ar, w.tokenPlaceholder = false → w.metaResult = Except.ok (tr, ar) →
        (tr == "") = false → w.searchStatus = 401 →
        (runMain a w).exitCode ≠ 0 ∧
        ∃ m ∈ (runMain a w).stderr, errLabeled m = true) ∧
      (∀ tr ar, w.tokenPlaceholder = false → w.metaResult = Except.ok (tr, ar) →
        (tr == "") = false → raisesStatus w.searchStatus = true →
        (w.searchStatus == 401) = false →
        (runMain a w).exitCode ≠ 0 ∧
        (runMain a w).uncaughtExn.isSome = true ∧
        ∀ m ∈ (runMain a w).stderr, errLabeled m = false) ∧
      (∀ tr ar, w.tokenPlaceholder = false → w.metaResult = Except.ok (tr, ar) →
        (tr == "") = false → raisesStatus w.searchStatus = false →
        (searchMatch ar w.hits).getD 0 = 0 →
        (runMain a w).exitCode ≠ 0 ∧
        ∃ m ∈ (runMain a w).stderr, errLabeled m = true) ∧
      (∀ tr ar, w.tokenPlaceholder = false → w.metaResult = Except.ok (tr, ar) →
        (tr == "") = false → raisesStatus w.searchStatus = false →
        ((searchMatch ar w.hits).getD 0 == 0) = false → w.songStatus = 401 →
        (runMain a w).exitCode ≠ 0 ∧
        ∃ m ∈ (runMain a w).stderr, errLabeled m = true) ∧
      (∀ tr ar, w.tokenPlaceholder = false → w.metaResult = Except.ok (tr, ar) →
        (tr == "") = false → raisesStatus w.searchStatus = false →
        ((searchMatch ar w.hits).getD 0 == 0) = false →
        raisesStatus w.songStatus = true → (w.songStatus == 401) = false →
        (runMain a w).exitCode ≠ 0 ∧
        (runMain a w).uncaughtExn.isSome = true ∧
        ∀ m ∈ (runMain a w).stderr, errLabeled m = false) := by
  intro a w
  obtain ⟨tp, mr, ss, hits, sst, song, sc⟩ := w
  refine ⟨?_, ?_, ?_, ?_, ?_, ?_, ?_, ?_⟩
  · intro h1
    simp only at h1
    subst h1
    simp only [runMain, if_true]
    exact ⟨by decide,
      "[ERROR] Please set GENIUS_ACCESS_TOKEN in the script (line 32).\n",
      by simp, by decide⟩
  · intro e h1 h2
    simp only at h1 h2
    subst h1 h2
    simp only [runMain, Bool.false_eq_true, if_false]
    exact ⟨by decide, "[ERROR] " ++ e ++ "\n", by simp,
      errLabeled_concat _ _ (errLabeled_concat _ _ (by decide))⟩
  · intro ar h1 h2
    simp only at h1 h2
    subst h1 h2
    simp only [runMain, Bool.false_eq_true, if_false, beq_self_eq_true, if_true]
    exact ⟨by decide, "[ERROR] Could not parse metadata from provided link.\n",
      by simp, by decide⟩
  · intro tr ar h1 h2 h3 h4
    simp only at h1 h2 h3 h4
    subst h1 h2 h4
    simp only [runMain, Bool.false_eq_true, if_false, h3]
    norm_num [raisesStatus]
    decide
  · intro tr ar h1 h2 h3 h4 h5
    simp only at h1 h2 h3 h4 h5
    subst h1 h2
    simp only [runMain, Bool.false_eq_true, if_false, h3, h4, h5, if_true]
    exact ⟨by decide, by decide, by simp⟩
  · intro tr ar h1 h2 h3 h4 h5
    simp only at h1 h2 h3 h4 h5
    subst h1 h2
    simp only [runMain, Bool.false_eq_true, if_false, h3, h4, h5,
      beq_self_eq_true, if_true]
    exact ⟨by decide, "[ERROR] No matching song found on Genius.\n",
      by simp, by decide⟩
  · intro tr ar h1 h2 h3 h4 h5 h6
    simp only at h1 h2 h3 h4 h5 h6
    subst h1 h2 h6
    simp only [runMain, Bool.false_eq_true, if_false, h3, h4, h5]
    norm_num [raisesStatus]
    decide
  · intro tr ar h1 h2 h3 h4 h5 h6 h7
    simp only at h1 h2 h3 h4 h5 h6 h7
    subst h1 h2
    simp only [runMain, Bool.false_eq_true, if_false, h3, h4, h5, h6, h7, if_true]
    exact ⟨by decide, by decide, by simp⟩

/-- C6 witness: a placeholder credential yields a labeled fatal error. -/
theorem fatal_error_reporting_witness :
    (runMain ⟨false, false, false, none⟩
        ⟨true, Except.ok ("T", "A"), 200, [], 200, [], Except.ok ""⟩).exitCode ≠ 0 ∧
    ∃ m ∈ (runMain ⟨false, false, false, none⟩
        ⟨true, Except.ok ("T", "A"), 200, [], 200, [], Except.ok ""⟩).stderr,
      errLabeled m = true :=
  (fatal_error_reporting ⟨false, false, false, none⟩
    ⟨true, Except.ok ("T", "A"), 200, [], 200, [], Except.ok ""⟩).1 rfl

/-- C6 counterexample to the claim as stated: a non-success, non-401
search response (HTTP 500) is a fatal catalog error (the run terminates
with exit status 1 through an uncaught exception), yet nothing at all —
in particular no `[ERROR]`-labeled message — is written by the script to
the error stream. -/
theorem catalog_error_unlabeled :
    (runMain ⟨false, false, false, none⟩
        ⟨false, Except.ok ("T", "A"), 500, [("A", 5)], 200, [], Except.ok ""⟩).stderr = []
    ∧ (runMain ⟨false, false, false, none⟩
        ⟨false, Except.ok ("T", "A"), 500, [("A", 5)], 200, [], Except.ok ""⟩).exitCode = 1
    ∧ (runMain ⟨false, false, false, none⟩
        ⟨false, Except.ok ("T", "A"), 500, [("A", 5)], 200, [], Except.ok ""⟩).uncaughtExn
      = some "requests.exceptions.HTTPError (search)" :=
  ⟨rfl, rfl, rfl⟩

/-- C10: a falsy song identifier (the integer 0) returned by the matcher
from a non-empty hit list is treated by `main` exactly as absence of a
match: the run reports the no-match fatal error and exits non-zero
without fetching the song. -/
theorem falsy_song_id_no_match :
    ∀ (a : Args) (w : World) (tr ar : String),
      w.tokenPlaceholder = false →
      w.metaResult = Except.ok (tr, ar) →
      (tr == "") = false →
      raisesStatus w.searchStatus = false →
      searchMatch ar w.hits = some 0 →
      runMain a w =
        ⟨1, ["[ERROR] No matching song found on Genius.\n"], none, none, none⟩ := by
  intro a w tr ar h1 h2 h3 h4 h5
  obtain ⟨tp, mr, ss, hits, sst, song, sc⟩ := w
  simp only at h1 h2 h3 h4 h5
  subst h1 h2
  simp only [runMain, h3, h4, h5, Bool.false_eq_true, if_false, Option.getD_some]
  simp

/-- C10 witness: a single hit whose identifier is `0`; the matcher's
fallback returns `some 0` and `main` reports "no matching song". -/
theorem falsy_song_id_no_match_witness :
    runMain ⟨false, false, false, none⟩
        ⟨false, Except.ok ("T", "A"), 200, [("X", 0)], 200, [], Except.ok ""⟩ =
      ⟨1, ["[ERROR] No matching song found on Genius.\n"], none, none, none⟩ := by
  exact falsy_song_id_no_match ⟨false, false, false, none⟩
    ⟨false, Except.ok ("T", "A"), 200, [("X", 0)], 200, [], Except.ok ""⟩
    "T" "A" rfl rfl (by decide) (by decide) (by decide)

theorem beq_false_of_isDigit_ne {c d : Char} (hc : c.isDigit = true)
    (hd : d.isDigit = false) : (c == d) = false := by
  cases h : c == d with
  | false => rfl
  | true =>
    rw [beq_iff_eq] at h
    subst h
    rw [hc] at hd
    exact absurd hd (by decide)

theorem ne_of_isDigit_ne {c d : Char} (hc : c.isDigit = true)
    (hd : d.isDigit = false) : c ≠ d := by
  intro h
  subst h
  rw [hc] at hd
  exact absurd hd (by decide)

theorem isWsChar_false_of_isDigit {c : Char} (hc : c.isDigit = true) :
    isWsChar c = false := by
  unfold isWsChar
  rw [beq_false_of_isDigit_ne hc (by decide),
    beq_false_of_isDigit_ne hc (by decide),
    beq_false_of_isDigit_ne hc (by decide),
    beq_false_of_isDigit_ne hc (by decide)]
  rfl

theorem skipWs_cons_of_not_ws {c : Char} (l : List Char)
    (h : isWsChar c = false) : skipWs (c :: l) = c :: l := by
  unfold skipWs
  exact List.dropWhile_cons_of_neg (by simp [h])

theorem skipWs_cons_of_ws {c : Char} (l : List Char)
    (h : isWsChar c = true) : skipWs (c :: l) = skipWs l := by
  unfold skipWs
  exact List.dropWhile_cons_of_pos h

theorem skipWs_spaces_append (k : Nat) (l : List Char) :
    skipWs (spaces k ++ l) = skipWs l := by
  induction k with
  | zero => rfl
  | succ n ih =>
    show skipWs (' ' :: spaces n ++ l) = skipWs l
    rw [List.cons_append, skipWs_cons_of_ws _ (by decide)]
    exact ih

theorem skipWs_newline (l : List Char) : skipWs ('\n' :: l) = skipWs l :=
  skipWs_cons_of_ws l (by decide)

theorem skipWs_idem (l : List Char) : skipWs (skipWs l) = skipWs l := by
  unfold skipWs
  induction l with
  | nil => rfl
  | cons c t ih =>
    cases h : isWsChar c with
    | true => rw [List.dropWhile_cons_of_pos h]; exact ih
    | false =>
      rw [List.dropWhile_cons_of_neg (by simp [h]),
        List.dropWhile_cons_of_neg (by simp [h])]

theorem parseVal_congr (fuel : Nat) {l l' : List Char}
    (h : skipWs l = skipWs l') : parseVal fuel l = parseVal fuel l' := by
  cases fuel with
  | zero => rfl
  | succ n => simp only [parseVal, h]

theorem parseItems_congr (fuel : Nat) {l l' : List Char}
    (h : skipWs l = skipWs l') : parseItems fuel l = parseItems fuel l' := by
  cases fuel with
  | zero => rfl
  | succ n => simp only [parseItems, parseVal_congr n h]

theorem parseFields_congr (fuel : Nat) {l l' : List Char}
    (h : skipWs l = skipWs l') : parseFields fuel l = parseFields fuel l' := by
  cases fuel with
  | zero => rfl
  | succ n => simp only [parseFields, h]

theorem hexDigit_isDigit {m : Nat} (h : m < 10) : (hexDigit m).isDigit = true := by
  interval_cases m <;> decide

theorem natToCharsAux_digits :
    ∀ (fuel n : Nat), ∀ c ∈ natToCharsAux fuel n, c.isDigit = true := by
  intro fuel
  induction fuel with
  | zero => intro n c hc; simp [natToCharsAux] at hc
  | succ m ih =>
    intro n c hc
    unfold natToCharsAux at hc
    by_cases hn : (n == 0) = true
    · rw [if_pos hn] at hc; simp at hc
    · rw [if_neg hn] at hc
      rw [List.mem_append] at hc
      cases hc with
      | inl h => exact ih _ c h
      | inr h =>
        simp at h
        subst h
        have h10 : n % 10 < 10 := Nat.mod_lt _ (by omega)
        interval_cases hm : (n % 10) <;> decide

theorem natToChars_digits (n : Nat) : ∀ c ∈ natToChars n, c.isDigit = true := by
  unfold natToChars
  by_cases h : (n == 0) = true
  · rw [if_pos h]; intro c hc; simp at hc; subst hc; decide
  · rw [if_neg h]; exact natToCharsAux_digits n n

theorem natToChars_ne_nil (n : Nat) : natToChars n ≠ [] := by
  unfold natToChars
  by_cases h : (n == 0) = true
  · rw [if_pos h]; simp
  · rw [if_neg h]
    cases n with
    | zero => exact absurd (by decide : ((0 : Nat) == 0) = true) h
    | succ m =>
      unfold natToCharsAux
      rw [if_neg (by simp)]
      simp

theorem parseNatDigits_digits_append :
    ∀ (ds : List Char) (acc : Nat) (rest : List Char),
      (∀ c ∈ ds, c.isDigit = true) →
      (∀ d, rest.head? = some d → d.isDigit = false) →
      parseNatDigits (ds ++ rest) acc =
        (ds.foldl (fun a c => a * 10 + (c.toNat - 48)) acc, rest) := by
  intro ds
  induction ds with
  | nil =>
    intro acc rest _ hrest
    cases rest with
    | nil => rfl
    | cons d r =>
      show parseNatDigits (d :: r) acc = (acc, d :: r)
      unfold parseNatDigits
      rw [if_neg (by simp [hrest d rfl])]
  | cons c t ih =>
    intro acc rest hds hrest
    rw [List.cons_append]
    unfold parseNatDigits
    rw [if_pos (hds c (List.mem_cons_self c t))]
    exact ih _ rest (fun x hx => hds x (List.mem_cons_of_mem c hx)) hrest

theorem natToCharsAux_foldl :
    ∀ (fuel n acc : Nat), n ≤ fuel →
      (natToCharsAux fuel n).foldl (fun a c => a * 10 + (c.toNat - 48)) acc =
        acc * 10 ^ (natToCharsAux fuel n).length + n := by
  intro fuel
  induction fuel with
  | zero =>
    intro n acc h
    interval_cases n
    simp [natToCharsAux]
  | succ m ih =>
    intro n acc h
    unfold natToCharsAux
    by_cases hn : (n == 0) = true
    · rw [if_pos hn]
      simp at hn
      simp [hn]
    · rw [if_neg hn]
      have hn0 : 0 < n := by simpa [Nat.pos_iff_ne_zero] using hn
      have hdiv : n / 10 ≤ m := by
        have := Nat.div_lt_self hn0 (by norm_num : (1 : Nat) < 10)
        omega
      rw [List.foldl_append, ih (n / 10) acc hdiv]
      have hd : (hexDigit (n % 10)).toNat = 48 + n % 10 := by
        have h10 : n % 10 < 10 := Nat.mod_lt _ (by omega)
        interval_cases hm : (n % 10) <;> decide
      simp only [List.foldl_cons, List.foldl_nil, hd, List.length_append,
        List.length_cons, List.length_nil]
      have hmod := Nat.div_add_mod n 10
      ring_nf
      omega

theorem natToChars_foldl (n : Nat) :
    (natToChars n).foldl (fun a c => a * 10 + (c.toNat - 48)) 0 = n := by
  unfold natToChars
  by_cases h : (n == 0) = true
  · rw [if_pos h]; simp at h; simp [h]
  · rw [if_neg h]
    rw [natToCharsAux_foldl n n 0 (Nat.le_refl n)]
    simp

theorem parseNatDigits_natToChars (n : Nat) (rest : List Char)
    (hrest : ∀ d, rest.head? = some d → d.isDigit = false) :
    parseNatDigits (natToChars n ++ rest) 0 = (n, rest) := by
  rw [parseNatDigits_digits_append _ _ _ (natToChars_digits n) hrest,
    natToChars_foldl]

theorem parseHex_hexDigit {m : Nat} (h : m < 16) : parseHex (hexDigit m) = some m := by
  interval_cases m <;> decide

theorem parseString_dumped :
    ∀ (l rest : List Char),
      parseString ((l.map escChar).flatten ++ ('"' :: rest)) = some (l, rest) := by
  intro l
  induction l with
  | nil =>
    intro rest
    unfold parseString
    simp
  | cons c t ih =>
    intro rest
    rw [List.map_cons, List.flatten_cons, List.append_assoc]
    by_cases h1 : (c == '\\') = true
    · rw [beq_iff_eq] at h1
      subst h1
      rw [show escChar '\\' = ['\\', '\\'] from by decide]
      simp only [List.cons_append, List.nil_append]
      unfold parseString
      simp [ih]
    · by_cases h2 : (c == '"') = true
      · rw [beq_iff_eq] at h2
        subst h2
        rw [show escChar '"' = ['\\', '"'] from by decide]
        simp only [List.cons_append, List.nil_append]
        unfold parseString
        simp [ih]
      · by_cases h3 : (c == '\x08') = true
        · rw [beq_iff_eq] at h3
          subst h3
          rw [show escChar '\x08' = ['\\', 'b'] from by decide]
          simp only [List.cons_append, List.nil_append]
          unfold parseString
          simp [ih]
        · by_cases h4 : (c == '\x0c') = true
          · rw [beq_iff_eq] at h4
            subst h4
            rw [show escChar '\x0c' = ['\\', 'f'] from by decide]
            simp only [List.cons_append, List.nil_append]
            unfold parseString
            simp [ih]
          · by_cases h5 : (c == '\n') = true
            · rw [beq_iff_eq] at h5
              subst h5
              rw [show escChar '\n' = ['\\', 'n'] from by decide]
              simp only [List.cons_append, List.nil_append]
              unfold parseString
              simp [ih]
            · by_cases h6 : (c == '\r') = true
              · rw [beq_iff_eq] at h6
                subst h6
                rw [show escChar '\r' = ['\\', 'r'] from by decide]
                simp only [List.cons_append, List.nil_append]
                unfold parseString
                simp [ih]
              · by_cases h7 : (c == '\t') = true
                · rw [beq_iff_eq] at h7
                  subst h7
                  rw [show escChar '\t' = ['\\', 't'] from by decide]
                  simp only [List.cons_append, List.nil_append]
                  unfold parseString
                  simp [ih]
                · by_cases h8 : c.toNat < 32
                  · have hesc : escChar c =
                        ['\\', 'u', '0', '0', hexDigit (c.toNat / 16),
                         hexDigit (c.toNat % 16)] := by
                      unfold escChar
                      rw [if_neg (by simp [h1]), if_neg (by simp [h2]),
                        if_neg (by simp [h3]), if_neg (by simp [h4]),
                        if_neg (by simp [h5]), if_neg (by simp [h6]),
                        if_neg (by simp [h7]), if_pos h8]
                    rw [hesc]
                    have hdiv : c.toNat / 16 < 16 := by omega
                    have hmod : c.toNat % 16 < 16 := Nat.mod_lt _ (by omega)
                    simp only [List.cons_append, List.nil_append]
                    unfold parseString
                    rw [if_neg (by decide), if_pos (by decide)]
                    simp only
                    rw [if_neg (by decide), if_neg (by decide),
                      if_neg (by decide), if_neg (by decide),
                      if_neg (by decide), if_neg (by decide),
                      if_neg (by decide), if_neg (by decide), if_pos (by decide)]
                    simp only [parseHex_hexDigit hdiv, parseHex_hexDigit hmod]
                    rw [show parseHex '0' = some 0 from by decide]
                    simp only
                    have hn : ((0 * 16 + 0) * 16 + c.toNat / 16) * 16 + c.toNat % 16
                        = c.toNat := by omega
                    rw [hn, Char.ofNat_toNat, ih]
                    rfl
                  · have hesc : escChar c = [c] := by
                      unfold escChar
                      rw [if_neg (by simp [h1]), if_neg (by simp [h2]),
                        if_neg (by simp [h3]), if_neg (by simp [h4]),
                        if_neg (by simp [h5]), if_neg (by simp [h6]),
                        if_neg (by simp [h7]), if_neg h8]
                    rw [hesc]
                    simp only [List.cons_append, List.nil_append]
                    unfold parseString
                    rw [if_neg (by simp [h2]), if_neg (by simp [h1]),
                      if_neg h8, ih]
                    rfl

theorem dumpVal_cons :
    ∀ (ind : Nat) (v : JVal), ∃ c t, dumpVal ind v = c :: t ∧
      isWsChar c = false ∧ c ≠ ']' ∧ c ≠ '\x7d' := by
  intro ind v
  cases v with
  | null => exact ⟨'n', ['u', 'l', 'l'], by simp [dumpVal], by decide, by decide, by decide⟩
  | bool b =>
    cases b with
    | true => exact ⟨'t', ['r', 'u', 'e'], by simp [dumpVal], by decide, by decide, by decide⟩
    | false => exact ⟨'f', ['a', 'l', 's', 'e'], by simp [dumpVal], by decide, by decide, by decide⟩
  | num i =>
    cases i with
    | ofNat n =>
      cases hnc : natToChars n with
      | nil => exact absurd hnc (natToChars_ne_nil n)
      | cons c t =>
        have hc : c.isDigit = true :=
          natToChars_digits n c (by rw [hnc]; exact List.mem_cons_self c t)
        refine ⟨c, t, ?_, isWsChar_false_of_isDigit hc,
          ne_of_isDigit_ne hc (by decide), ne_of_isDigit_ne hc (by decide)⟩
        simp [dumpVal, intToChars, hnc]
    | negSucc m =>
      exact ⟨'-', natToChars (m + 1), by simp [dumpVal, intToChars], by decide, by decide, by decide⟩
  | str s =>
    exact ⟨'"', (s.data.map escChar).flatten ++ ['"'], by simp [dumpVal, dumpString], by decide, by decide, by decide⟩
  | arr l =>
    cases l with
    | nil => exact ⟨'[', [']'], by simp [dumpVal], by decide, by decide, by decide⟩
    | cons y ys =>
      exact ⟨'[', '\n' :: (dumpItems (ind + 2) y ys ++ '\n' :: (spaces ind ++ [']'])), by simp [dumpVal], by decide, by decide, by decide⟩
  | obj l =>
    cases l with
    | nil => exact ⟨'\x7b', ['\x7d'], by simp [dumpVal], by decide, by decide, by decide⟩
    | cons p fs =>
      obtain ⟨k, v⟩ := p
      exact ⟨'\x7b', '\n' :: (dumpFields (ind + 2) k v fs ++ '\n' :: (spaces ind ++ ['\x7d'])), by simp [dumpVal], by decide, by decide, by decide⟩

theorem jsize_pos : ∀ v : JVal, 1 ≤ jsize v := by
  intro v
  cases v with
  | null => simp [jsize]
  | bool b => simp [jsize]
  | num i => simp [jsize]
  | str s => simp [jsize]
  | arr l =>
    cases l with
    | nil => simp [jsize]
    | cons y ys => simp [jsize]
  | obj l =>
    cases l with
    | nil => simp [jsize]
    | cons p fs => obtain ⟨k, v⟩ := p; simp [jsize]

theorem parseVal_null (fuel : Nat) (rest : List Char) (ind : Nat) :
    parseVal (fuel + 1) (dumpVal ind JVal.null ++ rest) = some (JVal.null, rest) := by
  have hd : dumpVal ind JVal.null ++ rest = 'n' :: 'u' :: 'l' :: 'l' :: rest := by
    simp [dumpVal]
  rw [hd]
  unfold parseVal
  rw [skipWs_cons_of_not_ws _ (by decide)]
  simp [expectChars, List.isPrefixOf]

theorem parseVal_bool (fuel : Nat) (b : Bool) (rest : List Char) (ind : Nat) :
    parseVal (fuel + 1) (dumpVal ind (JVal.bool b) ++ rest) =
      some (JVal.bool b, rest) := by
  cases b with
  | true =>
    have hd : dumpVal ind (JVal.bool true) ++ rest =
        't' :: 'r' :: 'u' :: 'e' :: rest := by simp [dumpVal]
    rw [hd]
    unfold parseVal
    rw [skipWs_cons_of_not_ws _ (by decide)]
    simp [expectChars, List.isPrefixOf]
  | false =>
    have hd : dumpVal ind (JVal.bool false) ++ rest =
        'f' :: 'a' :: 'l' :: 's' :: 'e' :: rest := by simp [dumpVal]
    rw [hd]
    unfold parseVal
    rw [skipWs_cons_of_not_ws _ (by decide)]
    simp [expectChars, List.isPrefixOf]

theorem parseVal_str (fuel : Nat) (s : String) (rest : List Char) (ind : Nat) :
    parseVal (fuel + 1) (dumpVal ind (JVal.str s) ++ rest) =
      some (JVal.str s, rest) := by
  obtain ⟨sd⟩ := s
  have hd : dumpVal ind (JVal.str ⟨sd⟩) ++ rest =
      '"' :: ((sd.map escChar).flatten ++ ('"' :: rest)) := by
    simp [dumpVal, dumpString]
  rw [hd]
  unfold parseVal
  rw [skipWs_cons_of_not_ws _ (by decide)]
  simp only [show (('"' : Char) == 'n') = false from by decide,
    show (('"' : Char) == 't') = false from by decide,
    show (('"' : Char) == 'f') = false from by decide,
    show (('"' : Char) == '"') = true from by decide,
    Bool.false_eq_true, if_false, if_true]
  rw [parseString_dumped]
  rfl

theorem parseVal_num (fuel : Nat) (i : Int) (rest : List Char) (ind : Nat)
    (hrest : ∀ d, rest.head? = some d → d.isDigit = false) :
    parseVal (fuel + 1) (dumpVal ind (JVal.num i) ++ rest) =
      some (JVal.num i, rest) := by
  cases i with
  | ofNat n =>
    cases hnc : natToChars n with
    | nil => exact absurd hnc (natToChars_ne_nil n)
    | cons c t =>
      have hc : c.isDigit = true :=
        natToChars_digits n c (by rw [hnc]; exact List.mem_cons_self c t)
      have hd : dumpVal ind (JVal.num (Int.ofNat n)) ++ rest =
          c :: (t ++ rest) := by simp [dumpVal, intToChars, hnc]
      rw [hd]
      unfold parseVal
      rw [skipWs_cons_of_not_ws _ (isWsChar_false_of_isDigit hc)]
      simp only [beq_false_of_isDigit_ne hc (by decide : ('n' : Char).isDigit = false),
        beq_false_of_isDigit_ne hc (by decide : ('t' : Char).isDigit = false),
        beq_false_of_isDigit_ne hc (by decide : ('f' : Char).isDigit = false),
        beq_false_of_isDigit_ne hc (by decide : ('"' : Char).isDigit = false),
        beq_false_of_isDigit_ne hc (by decide : ('-' : Char).isDigit = false),
        Bool.false_eq_true, if_false, hc, if_true]
      rw [show c :: (t ++ rest) = natToChars n ++ rest from by
        rw [hnc, List.cons_append]]
      rw [parseNatDigits_natToChars n rest hrest]
      rfl
  | negSucc m =>
    cases hnc : natToChars (m + 1) with
    | nil => exact absurd hnc (natToChars_ne_nil (m + 1))
    | cons c t =>
      have hc : c.isDigit = true :=
        natToChars_digits (m + 1) c (by rw [hnc]; exact List.mem_cons_self c t)
      have hd : dumpVal ind (JVal.num (Int.negSucc m)) ++ rest =
          '-' :: (c :: (t ++ rest)) := by simp [dumpVal, intToChars, hnc]
      rw [hd]
      unfold parseVal
      rw [skipWs_cons_of_not_ws _ (by decide)]
      simp only [show (('-' : Char) == 'n') = false from by decide,
        show (('-' : Char) == 't') = false from by decide,
        show (('-' : Char) == 'f') = false from by decide,
        show (('-' : Char) == '"') = false from by decide,
        show (('-' : Char) == '-') = true from by decide,
        Bool.false_eq_true, if_false, if_true]
      simp only [hc, if_true]
      rw [show c :: (t ++ rest) = natToChars (m + 1) ++ rest from by
        rw [hnc, List.cons_append]]
      rw [parseNatDigits_natToChars (m + 1) rest hrest]
      have hneg : -((m + 1 : Nat) : Int) = Int.negSucc m := by
        rw [Int.negSucc_eq]
        push_cast
        ring
      simp [hneg]
      omega

theorem parseVal_arr_nil (fuel : Nat) (rest : List Char) (ind : Nat) :
    parseVal (fuel + 1) (dumpVal ind (JVal.arr []) ++ rest) =
      some (JVal.arr [], rest) := by
  have hd : dumpVal ind (JVal.arr []) ++ rest = '[' :: ']' :: rest := by
    simp [dumpVal]
  rw [hd]
  unfold parseVal
  rw [skipWs_cons_of_not_ws _ (by decide)]
  simp only [show (('[' : Char) == 'n') = false from by decide,
    show (('[' : Char) == 't') = false from by decide,
    show (('[' : Char) == 'f') = false from by decide,
    show (('[' : Char) == '"') = false from by decide,
    show (('[' : Char) == '-') = false from by decide,
    show ('[' : Char).isDigit = false from by decide,
    show (('[' : Char) == '[') = true from by decide,
    Bool.false_eq_true, if_false, if_true]
  rw [skipWs_cons_of_not_ws _ (by decide)]
  split
  · rename_i r heq
    injection heq with h1 h2
    subst h2
    rfl
  · rename_i h
    exact absurd rfl (h rest)

theorem parseVal_obj_nil (fuel : Nat) (rest : List Char) (ind : Nat) :
    parseVal (fuel + 1) (dumpVal ind (JVal.obj []) ++ rest) =
      some (JVal.obj [], rest) := by
  have hd : dumpVal ind (JVal.obj []) ++ rest = '\x7b' :: '\x7d' :: rest := by
    simp [dumpVal]
  rw [hd]
  unfold parseVal
  rw [skipWs_cons_of_not_ws _ (by decide)]
  simp only [show (('\x7b' : Char) == 'n') = false from by decide,
    show (('\x7b' : Char) == 't') = false from by decide,
    show (('\x7b' : Char) == 'f') = false from by decide,
    show (('\x7b' : Char) == '"') = false from by decide,
    show (('\x7b' : Char) == '-') = false from by decide,
    show ('\x7b' : Char).isDigit = false from by decide,
    show (('\x7b' : Char) == '[') = false from by decide,
    show (('\x7b' : Char) == '\x7b') = true from by decide,
    Bool.false_eq_true, if_false, if_true]
  rw [skipWs_cons_of_not_ws _ (by decide)]
  split
  · rename_i r heq
    injection heq with h1 h2
    subst h2
    rfl
  · rename_i h
    exact absurd rfl (h rest)

theorem jsizeItems_nil (y : JVal) : jsizeItems y [] = 1 + jsize y := by
  simp [jsizeItems]

theorem jsizeItems_cons (y z : JVal) (zs : List JVal) :
    jsizeItems y (z :: zs) = 1 + jsize y + jsizeItems z zs := by
  simp [jsizeItems]

theorem jsizeFields_nil (v : JVal) : jsizeFields v [] = 1 + jsize v := by
  simp [jsizeFields]

theorem jsizeFields_cons (v : JVal) (k2 : String) (v2 : JVal)
    (gs : List (String × JVal)) :
    jsizeFields v ((k2, v2) :: gs) = 1 + jsize v + jsizeFields v2 gs := by
  simp [jsizeFields]

theorem jsize_arr_cons (y : JVal) (ys : List JVal) :
    jsize (JVal.arr (y :: ys)) = 1 + jsizeItems y ys := by
  simp [jsize]

theorem jsize_obj_cons (k : String) (v : JVal) (fs : List (String × JVal)) :
    jsize (JVal.obj ((k, v) :: fs)) = 1 + jsizeFields v fs := by
  simp [jsize]

theorem dumpItems_shape (ind : Nat) (y : JVal) (ys : List JVal) :
    ∃ M, dumpItems ind y ys = spaces ind ++ (dumpVal ind y ++ M) := by
  cases ys with
  | nil => exact ⟨[], by simp [dumpItems]⟩
  | cons z zs =>
    exact ⟨',' :: '\n' :: dumpItems ind z zs,
      by simp [dumpItems, List.append_assoc]⟩

theorem dumpFields_shape (ind : Nat) (k : String) (v : JVal)
    (fs : List (String × JVal)) :
    ∃ M, dumpFields ind k v fs =
      spaces ind ++ (dumpString k ++ (':' :: ' ' :: (dumpVal ind v ++ M))) := by
  cases fs with
  | nil => exact ⟨[], by simp [dumpFields]⟩
  | cons g gs =>
    obtain ⟨k2, v2⟩ := g
    exact ⟨',' :: '\n' :: dumpFields ind k2 v2 gs,
      by simp [dumpFields, List.append_assoc]⟩

theorem skipWs_dumpItems_append (ind : Nat) (y : JVal) (ys : List JVal)
    (T : List Char) :
    ∃ c0 Z, skipWs (dumpItems ind y ys ++ T) = c0 :: Z ∧
      isWsChar c0 = false ∧ c0 ≠ ']' ∧ c0 ≠ '\x7d' := by
  obtain ⟨M, hM⟩ := dumpItems_shape ind y ys
  obtain ⟨c0, t0, hdump, hws0, hne1, hne2⟩ := dumpVal_cons ind y
  refine ⟨c0, t0 ++ (M ++ T), ?_, hws0, hne1, hne2⟩
  rw [hM, List.append_assoc, skipWs_spaces_append, List.append_assoc,
    hdump, List.cons_append, skipWs_cons_of_not_ws _ hws0]

theorem skipWs_dumpFields_append (ind : Nat) (k : String) (v : JVal)
    (fs : List (String × JVal)) (T : List Char) :
    ∃ Z, skipWs (dumpFields ind k v fs ++ T) = '"' :: Z := by
  obtain ⟨M, hM⟩ := dumpFields_shape ind k v fs
  refine ⟨(k.data.map escChar).flatten ++
    ('"' :: (':' :: ' ' :: (dumpVal ind v ++ (M ++ T)))), ?_⟩
  rw [hM, List.append_assoc, skipWs_spaces_append, List.append_assoc]
  have hshape : (':' :: ' ' :: (dumpVal ind v ++ M)) ++ T
      = ':' :: ' ' :: (dumpVal ind v ++ (M ++ T)) := by
    simp [List.append_assoc]
  rw [hshape]
  unfold dumpString
  have hall : (('"' :: (k.data.map escChar).flatten) ++ ['"']) ++
      (':' :: ' ' :: (dumpVal ind v ++ (M ++ T)))
      = '"' :: ((k.data.map escChar).flatten ++
        ('"' :: (':' :: ' ' :: (dumpVal ind v ++ (M ++ T))))) := by
    simp [List.append_assoc]
  rw [hall, skipWs_cons_of_not_ws _ (by decide)]

theorem jsizeItems_pos (y : JVal) (ys : List JVal) : 1 ≤ jsizeItems y ys := by
  cases ys with
  | nil => rw [jsizeItems_nil]; omega
  | cons z zs => rw [jsizeItems_cons]; omega

theorem jsizeFields_pos (v : JVal) (fs : List (String × JVal)) :
    1 ≤ jsizeFields v fs := by
  cases fs with
  | nil => rw [jsizeFields_nil]; omega
  | cons g gs => obtain ⟨k2, v2⟩ := g; rw [jsizeFields_cons]; omega

theorem skipWs_dumpFields_eq (ind : Nat) (k : String) (v : JVal)
    (fs : List (String × JVal)) (T M : List Char)
    (hM : dumpFields ind k v fs =
      spaces ind ++ (dumpString k ++ (':' :: ' ' :: (dumpVal ind v ++ M)))) :
    skipWs (dumpFields ind k v fs ++ T) =
      '"' :: ((k.data.map escChar).flatten ++
        ('"' :: (':' :: ' ' :: (dumpVal ind v ++ (M ++ T))))) := by
  rw [hM, List.append_assoc, skipWs_spaces_append, List.append_assoc]
  have hshape : (':' :: ' ' :: (dumpVal ind v ++ M)) ++ T
      = ':' :: ' ' :: (dumpVal ind v ++ (M ++ T)) := by
    simp [List.append_assoc]
  rw [hshape]
  unfold dumpString
  have hall : (('"' :: (k.data.map escChar).flatten) ++ ['"']) ++
      (':' :: ' ' :: (dumpVal ind v ++ (M ++ T)))
      = '"' :: ((k.data.map escChar).flatten ++
        ('"' :: (':' :: ' ' :: (dumpVal ind v ++ (M ++ T))))) := by
    simp [List.append_assoc]
  rw [hall, skipWs_cons_of_not_ws _ (by decide)]

theorem parse_dump_all :
    ∀ fuel : Nat,
      (∀ (v : JVal) (ind : Nat) (rest : List Char), jsize v ≤ fuel →
        (∀ d, rest.head? = some d → d.isDigit = false) →
        parseVal fuel (dumpVal ind v ++ rest) = some (v, rest)) ∧
      (∀ (ind jnd : Nat) (y : JVal) (ys : List JVal) (rest : List Char),
        jsizeItems y ys ≤ fuel →
        parseItems fuel
            (dumpItems ind y ys ++ ('\n' :: (spaces jnd ++ (']' :: rest)))) =
          some (y :: ys, rest)) ∧
      (∀ (ind jnd : Nat) (k : String) (v : JVal) (fs : List (String × JVal))
        (rest : List Char), jsizeFields v fs ≤ fuel →
        parseFields fuel
            (dumpFields ind k v fs ++ ('\n' :: (spaces jnd ++ ('\x7d' :: rest)))) =
          some ((k, v) :: fs, rest)) := by
  intro fuel
  induction fuel using Nat.strong_induction_on with
  | _ fuel IH =>
  cases fuel with
  | zero =>
    refine ⟨?_, ?_, ?_⟩
    · intro v ind rest hsz _
      have := jsize_pos v
      omega
    · intro ind jnd y ys rest hsz
      have := jsizeItems_pos y ys
      omega
    · intro ind jnd k v fs rest hsz
      have := jsizeFields_pos v fs
      omega
  | succ fuel =>
    obtain ⟨Pval, Pitems, Pfields⟩ := IH fuel (Nat.lt_succ_self fuel)
    refine ⟨?_, ?_, ?_⟩
    · -- parseVal round trip
      intro v ind rest hsz hrest
      cases v with
      | null => exact parseVal_null fuel rest ind
      | bool b => exact parseVal_bool fuel b rest ind
      | num i => exact parseVal_num fuel i rest ind hrest
      | str s => exact parseVal_str fuel s rest ind
      | arr l =>
        cases l with
        | nil => exact parseVal_arr_nil fuel rest ind
        | cons y ys =>
          have hsz1 : jsizeItems y ys ≤ fuel := by
            rw [jsize_arr_cons] at hsz
            omega
          have hd : dumpVal ind (JVal.arr (y :: ys)) ++ rest =
              '[' :: ('\n' :: (dumpItems (ind + 2) y ys ++
                ('\n' :: (spaces ind ++ (']' :: rest))))) := by
            simp [dumpVal, List.append_assoc]
          rw [hd]
          unfold parseVal
          rw [skipWs_cons_of_not_ws _ (by decide)]
          simp only [show (('[' : Char) == 'n') = false from by decide,
            show (('[' : Char) == 't') = false from by decide,
            show (('[' : Char) == 'f') = false from by decide,
            show (('[' : Char) == '"') = false from by decide,
            show (('[' : Char) == '-') = false from by decide,
            show ('[' : Char).isDigit = false from by decide,
            show (('[' : Char) == '[') = true from by decide,
            Bool.false_eq_true, if_false, if_true]
          obtain ⟨c0, Z, hskip0, hws0, hne1, hne2⟩ :=
            skipWs_dumpItems_append (ind + 2) y ys
              ('\n' :: (spaces ind ++ (']' :: rest)))
          rw [skipWs_newline, hskip0]
          split
          · rename_i r heq
            injection heq with h1 h2
            exact absurd h1 hne1
          · have hpi : parseItems fuel (c0 :: Z) = some (y :: ys, rest) := by
              rw [parseItems_congr fuel
                (show skipWs (c0 :: Z) =
                  skipWs (dumpItems (ind + 2) y ys ++
                    ('\n' :: (spaces ind ++ (']' :: rest)))) from by
                  rw [skipWs_cons_of_not_ws _ hws0, hskip0])]
              exact Pitems (ind + 2) ind y ys rest hsz1
            rw [hpi]
            rfl
      | obj l =>
        cases l with
        | nil => exact parseVal_obj_nil fuel rest ind
        | cons g fs =>
          obtain ⟨k, v⟩ := g
          have hsz1 : jsizeFields v fs ≤ fuel := by
            rw [jsize_obj_cons] at hsz
            omega
          have hd : dumpVal ind (JVal.obj ((k, v) :: fs)) ++ rest =
              '\x7b' :: ('\n' :: (dumpFields (ind + 2) k v fs ++
                ('\n' :: (spaces ind ++ ('\x7d' :: rest))))) := by
            simp [dumpVal, List.append_assoc]
          rw [hd]
          unfold parseVal
          rw [skipWs_cons_of_not_ws _ (by decide)]
          simp only [show (('\x7b' : Char) == 'n') = false from by decide,
            show (('\x7b' : Char) == 't') = false from by decide,
            show (('\x7b' : Char) == 'f') = false from by decide,
            show (('\x7b' : Char) == '"') = false from by decide,
            show (('\x7b' : Char) == '-') = false from by decide,
            show ('\x7b' : Char).isDigit = false from by decide,
            show (('\x7b' : Char) == '[') = false from by decide,
            show (('\x7b' : Char) == '\x7b') = true from by decide,
            Bool.false_eq_true, if_false, if_true]
          obtain ⟨Z, hskip0⟩ :=
            skipWs_dumpFields_append (ind + 2) k v fs
              ('\n' :: (spaces ind ++ ('\x7d' :: rest)))
          rw [skipWs_newline, hskip0]
          split
          · rename_i r heq
            injection heq with h1 h2
            exact absurd h1 (by decide)
          · have hpf : parseFields fuel ('"' :: Z) =
                some ((k, v) :: fs, rest) := by
              rw [parseFields_congr fuel
                (show skipWs ('"' :: Z) =
                  skipWs (dumpFields (ind + 2) k v fs ++
                    ('\n' :: (spaces ind ++ ('\x7d' :: rest)))) from by
                  rw [skipWs_cons_of_not_ws _ (by decide), hskip0])]
              exact Pfields (ind + 2) ind k v fs rest hsz1
            rw [hpf]
            rfl
    · -- parseItems round trip
      intro ind jnd y ys rest hsz
      cases ys with
      | nil =>
        have hsz1 : jsize y ≤ fuel := by
          rw [jsizeItems_nil] at hsz
          omega
        have hpv : parseVal fuel
            (dumpItems ind y [] ++ ('\n' :: (spaces jnd ++ (']' :: rest)))) =
            some (y, '\n' :: (spaces jnd ++ (']' :: rest))) := by
          rw [parseVal_congr fuel
            (show skipWs (dumpItems ind y [] ++
                ('\n' :: (spaces jnd ++ (']' :: rest)))) =
              skipWs (dumpVal ind y ++
                ('\n' :: (spaces jnd ++ (']' :: rest)))) from by
              rw [show dumpItems ind y [] = spaces ind ++ dumpVal ind y from by
                simp [dumpItems], List.append_assoc, skipWs_spaces_append])]
          refine Pval y ind _ hsz1 ?_
          intro d hd
          injection hd with h
          rw [← h]
          decide
        unfold parseItems
        rw [hpv]
        simp only
        rw [show skipWs ('\n' :: (spaces jnd ++ (']' :: rest))) = ']' :: rest
          from by rw [skipWs_newline, skipWs_spaces_append,
            skipWs_cons_of_not_ws _ (by decide)]]
        split
        · rename_i r heq
          injection heq with h1 h2
          exact absurd h1 (by decide)
        · rename_i r heq
          injection heq with h1 h2
          subst h2
          rfl
        · rename_i hne1 hne2
          exact absurd rfl (hne2 rest)
      | cons z zs =>
        have hsz1 : jsize y ≤ fuel := by
          rw [jsizeItems_cons] at hsz
          have := jsizeItems_pos z zs
          omega
        have hsz2 : jsizeItems z zs ≤ fuel := by
          rw [jsizeItems_cons] at hsz
          have := jsize_pos y
          omega
        have hpv : parseVal fuel
            (dumpItems ind y (z :: zs) ++ ('\n' :: (spaces jnd ++ (']' :: rest)))) =
            some (y, ',' :: '\n' ::
              (dumpItems ind z zs ++ ('\n' :: (spaces jnd ++ (']' :: rest))))) := by
          rw [parseVal_congr fuel
            (show skipWs (dumpItems ind y (z :: zs) ++
                ('\n' :: (spaces jnd ++ (']' :: rest)))) =
              skipWs (dumpVal ind y ++ (',' :: '\n' ::
                (dumpItems ind z zs ++ ('\n' :: (spaces jnd ++ (']' :: rest)))))) from by
              rw [show dumpItems ind y (z :: zs) =
                  spaces ind ++ (dumpVal ind y ++ (',' :: '\n' :: dumpItems ind z zs))
                from by simp [dumpItems, List.append_assoc],
                List.append_assoc, skipWs_spaces_append]
              have : (dumpVal ind y ++ (',' :: '\n' :: dumpItems ind z zs)) ++
                  ('\n' :: (spaces jnd ++ (']' :: rest)))
                  = dumpVal ind y ++ (',' :: '\n' ::
                    (dumpItems ind z zs ++ ('\n' :: (spaces jnd ++ (']' :: rest))))) := by
                simp [List.append_assoc]
              rw [this])]
          refine Pval y ind _ hsz1 ?_
          intro d hd
          injection hd with h
          rw [← h]
          decide
        unfold parseItems
        rw [hpv]
        simp only
        rw [skipWs_cons_of_not_ws _ (by decide)]
        have hpi : parseItems fuel ('\n' ::
            (dumpItems ind z zs ++ ('\n' :: (spaces jnd ++ (']' :: rest))))) =
            some (z :: zs, rest) := by
          rw [parseItems_congr fuel (skipWs_newline _)]
          exact Pitems ind jnd z zs rest hsz2
        split
        · rename_i r heq
          injection heq with h1 h2
          subst h2
          rw [hpi]
        · rename_i r heq
          injection heq with h1 h2
          exact absurd h1 (by decide)
        · rename_i hne1 hne2
          exact absurd rfl (hne1 ('\n' ::
            (dumpItems ind z zs ++ ('\n' :: (spaces jnd ++ (']' :: rest))))))
    · -- parseFields round trip
      intro ind jnd k v fs rest hsz
      cases fs with
      | nil =>
        have hsz1 : jsize v ≤ fuel := by
          rw [jsizeFields_nil] at hsz
          omega
        have hM : dumpFields ind k v [] =
            spaces ind ++ (dumpString k ++ (':' :: ' ' :: (dumpVal ind v ++ []))) := by
          simp [dumpFields]
        unfold parseFields
        rw [skipWs_dumpFields_eq ind k v [] _ [] hM]
        simp only
        rw [parseString_dumped]
        simp only
        rw [skipWs_cons_of_not_ws _ (by decide)]
        simp only
        have hpv : parseVal fuel (' ' :: (dumpVal ind v ++
            ([] ++ ('\n' :: (spaces jnd ++ ('\x7d' :: rest)))))) =
            some (v, '\n' :: (spaces jnd ++ ('\x7d' :: rest))) := by
          rw [parseVal_congr fuel (skipWs_cons_of_ws _ (by decide))]
          rw [List.nil_append]
          refine Pval v ind _ hsz1 ?_
          intro d hd
          injection hd with h
          rw [← h]
          decide
        rw [hpv]
        simp only
        rw [show skipWs ('\n' :: (spaces jnd ++ ('\x7d' :: rest))) = '\x7d' :: rest
          from by rw [skipWs_newline, skipWs_spaces_append,
            skipWs_cons_of_not_ws _ (by decide)]]
        split
        · rename_i r heq
          injection heq with h1 h2
          exact absurd h1 (by decide)
        · rename_i r heq
          injection heq with h1 h2
          subst h2
          rfl
        · rename_i hne1 hne2
          exact absurd rfl (hne2 rest)
      | cons g gs =>
        obtain ⟨k2, v2⟩ := g
        have hsz1 : jsize v ≤ fuel := by
          rw [jsizeFields_cons] at hsz
          have := jsizeFields_pos v2 gs
          omega
        have hsz2 : jsizeFields v2 gs ≤ fuel := by
          rw [jsizeFields_cons] at hsz
          have := jsize_pos v
          omega
        have hM : dumpFields ind k v ((k2, v2) :: gs) =
            spaces ind ++ (dumpString k ++ (':' :: ' ' ::
              (dumpVal ind v ++ (',' :: '\n' :: dumpFields ind k2 v2 gs)))) := by
          simp [dumpFields, List.append_assoc]
        unfold parseFields
        rw [skipWs_dumpFields_eq ind k v ((k2, v2) :: gs) _
          (',' :: '\n' :: dumpFields ind k2 v2 gs) hM]
        simp only
        rw [parseString_dumped]
        simp only
        rw [skipWs_cons_of_not_ws _ (by decide)]
        simp only
        have hpv : parseVal fuel (' ' :: (dumpVal ind v ++
            ((',' :: '\n' :: dumpFields ind k2 v2 gs) ++
              ('\n' :: (spaces jnd ++ ('\x7d' :: rest)))))) =
            some (v, ',' :: '\n' :: (dumpFields ind k2 v2 gs ++
              ('\n' :: (spaces jnd ++ ('\x7d' :: rest))))) := by
          rw [parseVal_congr fuel (skipWs_cons_of_ws _ (by decide))]
          have : (',' :: '\n' :: dumpFields ind k2 v2 gs) ++
              ('\n' :: (spaces jnd ++ ('\x7d' :: rest)))
              = ',' :: '\n' :: (dumpFields ind k2 v2 gs ++
                ('\n' :: (spaces jnd ++ ('\x7d' :: rest)))) := by
            simp
          rw [this]
          refine Pval v ind _ hsz1 ?_
          intro d hd
          injection hd with h
          rw [← h]
          decide
        rw [hpv]
        simp only
        rw [skipWs_cons_of_not_ws _ (by decide)]
        have hpf : parseFields fuel ('\n' :: (dumpFields ind k2 v2 gs ++
            ('\n' :: (spaces jnd ++ ('\x7d' :: rest))))) =
            some ((k2, v2) :: gs, rest) := by
          rw [parseFields_congr fuel (skipWs_newline _)]
          exact Pfields ind jnd k2 v2 gs rest hsz2
        split
        · rename_i r heq
          injection heq with h1 h2
          subst h2
          rw [hpf]
        · rename_i r heq
          injection heq with h1 h2
          exact absurd h1 (by decide)
        · rename_i hne1 hne2
          exact absurd rfl (hne1 ('\n' :: (dumpFields ind k2 v2 gs ++
            ('\n' :: (spaces jnd ++ ('\x7d' :: rest))))))

theorem intToChars_ne_nil (i : Int) : intToChars i ≠ [] := by
  cases i with
  | ofNat n => exact natToChars_ne_nil n
  | negSucc m => simp [intToChars]

theorem jsize_le_dump_length :
    ∀ n : Nat,
      (∀ (v : JVal) (ind : Nat), jsize v ≤ n →
        jsize v ≤ (dumpVal ind v).length) ∧
      (∀ (ind : Nat) (y : JVal) (ys : List JVal), jsizeItems y ys ≤ n →
        jsizeItems y ys ≤ (dumpItems ind y ys).length + 1) ∧
      (∀ (ind : Nat) (k : String) (v : JVal) (fs : List (String × JVal)),
        jsizeFields v fs ≤ n →
        jsizeFields v fs ≤ (dumpFields ind k v fs).length + 1) := by
  intro n
  induction n using Nat.strong_induction_on with
  | _ n IH =>
  refine ⟨?_, ?_, ?_⟩
  · intro v ind hsz
    cases v with
    | null => simp [dumpVal, jsize]
    | bool b => cases b <;> simp [dumpVal, jsize]
    | num i =>
      have := intToChars_ne_nil i
      have hlen : 0 < (intToChars i).length := List.length_pos.mpr this
      simp only [dumpVal, jsize]
      omega
    | str s => simp [dumpVal, jsize, dumpString]
    | arr l =>
      cases l with
      | nil => simp [dumpVal, jsize]
      | cons y ys =>
        have hpos : 1 ≤ jsizeItems y ys := jsizeItems_pos y ys
        have hn : 0 < n := by
          rw [jsize_arr_cons] at hsz
          omega
        have hsz1 : jsizeItems y ys ≤ n - 1 := by
          rw [jsize_arr_cons] at hsz
          omega
        have hitems := (IH (n - 1) (by omega)).2.1 (ind + 2) y ys hsz1
        rw [jsize_arr_cons]
        simp only [dumpVal, List.length_cons, List.length_append, spaces,
          List.length_replicate]
        omega
    | obj l =>
      cases l with
      | nil => simp [dumpVal, jsize]
      | cons g fs =>
        obtain ⟨k, v⟩ := g
        have hpos : 1 ≤ jsizeFields v fs := jsizeFields_pos v fs
        have hn : 0 < n := by
          rw [jsize_obj_cons] at hsz
          omega
        have hsz1 : jsizeFields v fs ≤ n - 1 := by
          rw [jsize_obj_cons] at hsz
          omega
        have hfields := (IH (n - 1) (by omega)).2.2 (ind + 2) k v fs hsz1
        rw [jsize_obj_cons]
        simp only [dumpVal, List.length_cons, List.length_append, spaces,
          List.length_replicate]
        omega
  · intro ind y ys hsz
    cases ys with
    | nil =>
      have hpos : 1 ≤ jsize y := jsize_pos y
      have hn : 0 < n := by
        rw [jsizeItems_nil] at hsz
        omega
      have hsz1 : jsize y ≤ n - 1 := by
        rw [jsizeItems_nil] at hsz
        omega
      have hval := (IH (n - 1) (by omega)).1 y ind hsz1
      rw [jsizeItems_nil]
      rw [show dumpItems ind y [] = spaces ind ++ dumpVal ind y from by
        simp [dumpItems]]
      simp only [List.length_append, spaces, List.length_replicate]
      omega
    | cons z zs =>
      have hposy : 1 ≤ jsize y := jsize_pos y
      have hposz : 1 ≤ jsizeItems z zs := jsizeItems_pos z zs
      have hn : 0 < n := by
        rw [jsizeItems_cons] at hsz
        omega
      have hsz1 : jsize y ≤ n - 1 := by
        rw [jsizeItems_cons] at hsz
        omega
      have hsz2 : jsizeItems z zs ≤ n - 1 := by
        rw [jsizeItems_cons] at hsz
        omega
      have hval := (IH (n - 1) (by omega)).1 y ind hsz1
      have hitems := (IH (n - 1) (by omega)).2.1 ind z zs hsz2
      rw [jsizeItems_cons]
      rw [show dumpItems ind y (z :: zs) =
          spaces ind ++ (dumpVal ind y ++ (',' :: '\n' :: dumpItems ind z zs))
        from by simp [dumpItems, List.append_assoc]]
      simp only [List.length_append, List.length_cons, spaces,
        List.length_replicate]
      omega
  · intro ind k v fs hsz
    cases fs with
    | nil =>
      have hpos : 1 ≤ jsize v := jsize_pos v
      have hn : 0 < n := by
        rw [jsizeFields_nil] at hsz
        omega
      have hsz1 : jsize v ≤ n - 1 := by
        rw [jsizeFields_nil] at hsz
        omega
      have hval := (IH (n - 1) (by omega)).1 v ind hsz1
      rw [jsizeFields_nil]
      rw [show dumpFields ind k v [] =
          spaces ind ++ (dumpString k ++ (':' :: ' ' :: (dumpVal ind v ++ [])))
        from by simp [dumpFields]]
      simp only [List.length_append, List.length_cons, List.append_nil, spaces,
        List.length_replicate]
      omega
    | cons g gs =>
      obtain ⟨k2, v2⟩ := g
      have hposv : 1 ≤ jsize v := jsize_pos v
      have hposg : 1 ≤ jsizeFields v2 gs := jsizeFields_pos v2 gs
      have hn : 0 < n := by
        rw [jsizeFields_cons] at hsz
        omega
      have hsz1 : jsize v ≤ n - 1 := by
        rw [jsizeFields_cons] at hsz
        omega
      have hsz2 : jsizeFields v2 gs ≤ n - 1 := by
        rw [jsizeFields_cons] at hsz
        omega
      have hval := (IH (n - 1) (by omega)).1 v ind hsz1
      have hfields := (IH (n - 1) (by omega)).2.2 ind k2 v2 gs hsz2
      rw [jsizeFields_cons]
      rw [show dumpFields ind k v ((k2, v2) :: gs) =
          spaces ind ++ (dumpString k ++ (':' :: ' ' ::
            (dumpVal ind v ++ (',' :: '\n' :: dumpFields ind k2 v2 gs))))
        from by simp [dumpFields, List.append_assoc]]
      simp only [List.length_append, List.length_cons, spaces,
        List.length_replicate]
      omega

theorem jsonLoads_dumps (v : JVal) : jsonLoads (dumps v) = some v := by
  unfold jsonLoads dumps
  have hlen : jsize v ≤ (dumpVal 0 v).length :=
    (jsize_le_dump_length (jsize v)).1 v 0 (Nat.le_refl _)
  have h := (parse_dump_all ((dumpVal 0 v).length + 1)).1 v 0 []
    (by omega) (by intro d hd; simp at hd)
  rw [List.append_nil] at h
  rw [show (String.mk (dumpVal 0 v)).data = dumpVal 0 v from rfl, h]
  rfl

/-- C9: in metadata-only structured mode the composer serializes the
SongRecord verbatim, and re-parsing that representation reproduces
exactly the original keys and values. -/
theorem metadata_json_roundtrip :
    ∀ (song : SongRecord) (lyrics : String) (a : Args),
      a.jsonOut = true → a.lyrics = false → a.data = true →
      composeOutput a song lyrics = some (dumps (JVal.obj song)) ∧
      jsonLoads (dumps (JVal.obj song)) = some (JVal.obj song) := by
  intro song lyrics a h1 h2 h3
  obtain ⟨al, ad, aj, af⟩ := a
  simp only at h1 h2 h3
  subst h1 h2 h3
  exact ⟨by simp [composeOutput], jsonLoads_dumps _⟩

/-- C9 witness: a concrete two-field record round-trips. -/
theorem metadata_json_roundtrip_witness :
    composeOutput ⟨false, true, true, none⟩
        [("title", JVal.str "T"), ("n", JVal.num (-3))] "" =
      some (dumps (JVal.obj [("title", JVal.str "T"), ("n", JVal.num (-3))])) ∧
    jsonLoads (dumps (JVal.obj [("title", JVal.str "T"), ("n", JVal.num (-3))])) =
      some (JVal.obj [("title", JVal.str "T"), ("n", JVal.num (-3))]) :=
  metadata_json_roundtrip [("title", JVal.str "T"), ("n", JVal.num (-3))] ""
    ⟨false, true, true, none⟩ rfl rfl rfl
